import Mathlib

/-!
Verification of the grid layout engine of the Eletromidia dashboard builder.

The engine lives in `src/components/GridCanvas.tsx` (collision resolver
`moveBlock`, containment constrainer `constrainToParent`, ghost / commit
logic, interactive container resize), `src/App.tsx` (free-slot finder
`findFreeSlot`, even redistribution in `handleUpdateSelectedBlocks`) and
`src/services/geminiService.ts` (ingestion mapping and containment-based
hierarchy inference).  All JavaScript numbers occurring in these code paths
are integers, embedded as `Int`; `Math.round` of the one fractional
quantity (the proportional resize scale) is embedded exactly as
`⌊numerator / denominator + 1/2⌋` on integers.
-/

namespace GridEngine

/-- `'horizontal' | 'vertical'` stack direction of a Hero container. -/
inductive StackDirection where
  | horizontal
  | vertical
deriving DecidableEq, Repr

/-- `BlockType` enum from `types.ts`. -/
inductive BlockType where
  | hero
  | stats
  | list
  | metric
  | image
  | chart
  | empty
deriving DecidableEq, Repr

/-- `GridPosition` from `types.ts`: integer grid rectangle. -/
structure GridPosition where
  colStart : Int
  colSpan : Int
  rowStart : Int
  rowSpan : Int
deriving DecidableEq, Repr

/-- `DashboardBlock` from `types.ts`, restricted to the fields the layout
engine reads (`title`, `color`, `opacity`, `content` are rendering-only).
`heroProperties` carries the stack direction when present. -/
structure Block where
  id : String
  type : BlockType
  position : GridPosition
  parentBlockId : Option String
  heroProperties : Option StackDirection
deriving DecidableEq, Repr

/-- `parent.heroProperties?.stackDirection || 'horizontal'`. -/
def stackDirOf (b : Block) : StackDirection :=
  b.heroProperties.getD StackDirection.horizontal

/-- `isHorizontalOverlap` (GridCanvas.tsx): column intervals intersect. -/
def isHorizontalOverlap (a b : GridPosition) : Bool :=
  if a.colStart + a.colSpan ≤ b.colStart then false
  else if a.colStart ≥ b.colStart + b.colSpan then false
  else true

/-- `isBufferViolation` (GridCanvas.tsx): two blocks overlap in both axes,
except that a direct parent/child pair never violates. -/
def isBufferViolation (a b : Block) : Bool :=
  if a.parentBlockId = some b.id ∨ b.parentBlockId = some a.id then false
  else
    let posA := a.position
    let posB := b.position
    if ¬ isHorizontalOverlap posA posB then false
    else
      let aEnd := posA.rowStart + posA.rowSpan
      let bEnd := posB.rowStart + posB.rowSpan
      if aEnd ≤ posB.rowStart then false
      else if bEnd ≤ posA.rowStart then false
      else true

/-- One axis of `constrainToParent`'s clamping: the source's three
statements `if (size > avail) size = avail; if (start < min) start = min;
if (start + size - 1 > maxInclusive) start = maxInclusive - size + 1`,
returning `(start, size)`. -/
def clampChain (mn mx avail s sz : Int) : Int × Int :=
  let sz1 := if sz > avail then avail else sz
  let s1 := if s < mn then mn else s
  let s2 := if s1 + sz1 - 1 > mx then mx - sz1 + 1 else s1
  (s2, sz1)

/-- `constrainToParent` (GridCanvas.tsx lines 57-90): force the stacked
axis to fill the parent's interior, then clamp both axes into the interior
(padding: 1 row top and bottom, 0 columns).  The source's six inline clamp
statements are the two independent `clampChain` applications (rows first,
then columns, exactly the source's operations). -/
def constrainToParent (childPos : GridPosition) (parent : Block) : GridPosition :=
  let pCol := parent.position.colStart
  let pRow := parent.position.rowStart
  let pSpan := parent.position.colSpan
  let pSpanH := parent.position.rowSpan
  let stackDirection := stackDirOf parent
  let verticalPadding : Int := 1
  let horizontalPadding : Int := 0
  let minRow := pRow + verticalPadding
  let maxRowInclusive := pRow + pSpanH - 1 - verticalPadding
  let minCol := pCol + horizontalPadding
  let maxColInclusive := pCol + pSpan - 1 - horizontalPadding
  let availableWidth := max 1 (pSpan - horizontalPadding * 2)
  let availableHeight := max 1 (pSpanH - verticalPadding * 2)
  let colStart0 := if stackDirection = StackDirection.vertical then minCol else childPos.colStart
  let colSpan0 := if stackDirection = StackDirection.vertical then availableWidth else childPos.colSpan
  let rowStart0 := if stackDirection = StackDirection.vertical then childPos.rowStart else minRow
  let rowSpan0 := if stackDirection = StackDirection.vertical then childPos.rowSpan else availableHeight
  let rows := clampChain minRow maxRowInclusive availableHeight rowStart0 rowSpan0
  let cols := clampChain minCol maxColInclusive availableWidth colStart0 colSpan0
  ⟨cols.1, cols.2, rows.1, rows.2⟩

/-- Update the element at index `i` of a list (identity when out of range). -/
def updateAt (i : Nat) (f : Block → Block) : List Block → List Block
  | [] => []
  | b :: bs =>
    match i with
    | 0 => f b :: bs
    | Nat.succ i' => b :: updateAt i' f bs

/-- Overwrite only the `rowStart` of a block's position. -/
def setRowStart (v : Int) (b : Block) : Block :=
  { b with position := { b.position with rowStart := v } }

/-- Step 1 of a resolver pass at index `i`: if the block has a
`parentBlockId` whose block is found, re-clamp it via `constrainToParent`
(the source's change-check before assigning is a pure optimisation). -/
def constrainAt (l : List Block) (i : Nat) : List Block :=
  match l.get? i with
  | none => l
  | some b1 =>
    match b1.parentBlockId with
    | none => l
    | some pid =>
      match l.find? (fun p => p.id == pid) with
      | none => l
      | some parent =>
        updateAt i (fun b => { b with position := constrainToParent b.position parent }) l

/-- Pair resolution of `moveBlock`'s inner loop for indices `(i, j)`:
push the appropriate block's `rowStart` down on a buffer violation,
returning the new list and whether a collision was flagged. -/
def pairStep (moved : List String) (l : List Block) (i j : Nat) : List Block × Bool :=
  if i = j then (l, false)
  else
    match l.get? i, l.get? j with
    | some b1, some b2 =>
      if isBufferViolation b1 b2 then
        let isB1Moved := moved.contains b1.id
        let isB2Moved := moved.contains b2.id
        if isB1Moved ∧ isB2Moved then (l, false)
        else if ¬ isB1Moved ∧ ¬ isB2Moved then
          let b1IsUpper := b1.position.rowStart < b2.position.rowStart
          let lowerIdx := if b1IsUpper then j else i
          let upper := if b1IsUpper then b1 else b2
          let lower := if b1IsUpper then b2 else b1
          let tightStart := upper.position.rowStart + upper.position.rowSpan
          if lower.position.rowStart < tightStart then
            (updateAt lowerIdx (setRowStart tightStart) l, true)
          else (l, false)
        else
          let movingIdx := if isB1Moved then i else j
          let staticB := if isB1Moved then b2 else b1
          let movingB := if isB1Moved then b1 else b2
          let minStart := staticB.position.rowStart + staticB.position.rowSpan
          if movingB.position.rowStart < minStart then
            (updateAt movingIdx (setRowStart minStart) l, true)
          else (l, false)
      else (l, false)
    | _, _ => (l, false)

/-- Inner `j` loop of a resolver pass for fixed `i`, over the index list
`js` (instantiated with `List.range n`, i.e. `j = 0, …, n-1`). -/
def innerLoop (moved : List String) (i : Nat) (l : List Block) :
    List Nat → List Block × Bool
  | [] => (l, false)
  | j :: js =>
    let p := pairStep moved l i j
    let rest := innerLoop moved i p.1 js
    (rest.1, p.2 || rest.2)

/-- Outer `i` loop of a resolver pass over the index list `is`:
re-clamp block `i` to its parent, then resolve all pairs `(i, j)`. -/
def outerLoop (moved : List String) (n : Nat) (l : List Block) :
    List Nat → List Block × Bool
  | [] => (l, false)
  | i :: is =>
    let l1 := constrainAt l i
    let inner := innerLoop moved i l1 (List.range n)
    let rest := outerLoop moved n inner.1 is
    (rest.1, inner.2 || rest.2)

/-- One full pass of `moveBlock`'s `while` body. -/
def onePass (moved : List String) (l : List Block) : List Block × Bool :=
  outerLoop moved l.length l (List.range l.length)

/-- The `while (hasCollision && iterations < 100)` loop: run passes until
one reports no collision, up to the `fuel` cap. -/
def passes (moved : List String) : Nat → List Block → List Block
  | 0, l => l
  | Nat.succ k, l =>
    let p := onePass moved l
    if p.2 then passes moved k p.1 else p.1

/-- `newPositions[b.id] ? { ...b, position: newPositions[b.id] } : b`. -/
def applyOverrides (newPositions : List (String × GridPosition)) (blocks : List Block) :
    List Block :=
  blocks.map fun b =>
    match newPositions.find? (fun kv => kv.1 == b.id) with
    | some kv => { b with position := kv.2 }
    | none => b

/-- The sort comparator of `moveBlock`: by `rowStart`, then `colStart`
(`Array.prototype.sort` is stable; insertion sort is the matching stable
sort). -/
def blockLE (a b : Block) : Prop :=
  a.position.rowStart < b.position.rowStart ∨
    (a.position.rowStart = b.position.rowStart ∧ a.position.colStart ≤ b.position.colStart)

instance : DecidableRel blockLE := by
  intro a b
  unfold blockLE
  infer_instance

def sortBlocks (l : List Block) : List Block :=
  l.insertionSort blockLE

/-- `moveBlock` (GridCanvas.tsx lines 92-174), the Collision Resolver:
apply overrides, sort by `(rowStart, colStart)`, then run up to 100
constrain-and-push passes. -/
def moveBlock (blocks : List Block) (movedBlockIds : List String)
    (newPositions : List (String × GridPosition)) : List Block :=
  passes movedBlockIds 100 (sortBlocks (applyOverrides newPositions blocks))

lemma clampChain_idem (mn mx avail s sz : Int) :
    clampChain mn mx avail (clampChain mn mx avail s sz).1 (clampChain mn mx avail s sz).2 =
      clampChain mn mx avail s sz := by
  unfold clampChain
  split_ifs <;> simp_all [Prod.ext_iff] <;> omega

lemma constrainToParent_idem (childPos : GridPosition) (parent : Block) :
    constrainToParent (constrainToParent childPos parent) parent =
      constrainToParent childPos parent := by
  unfold constrainToParent
  rcases hd : stackDirOf parent with _ | _ <;>
    simp only [hd, reduceCtorEq, reduceIte] <;>
    rw [GridPosition.mk.injEq] <;>
    refine ⟨?_, ?_, ?_, ?_⟩ <;>
    first
      | rfl
      | exact congrArg Prod.fst (clampChain_idem ..)
      | exact congrArg Prod.snd (clampChain_idem ..)

lemma clampChain_bounds (mn mx avail s sz : Int) (h2 : avail ≤ mx - mn + 1) :
    mn ≤ (clampChain mn mx avail s sz).1 ∧
      (clampChain mn mx avail s sz).1 + (clampChain mn mx avail s sz).2 - 1 ≤ mx := by
  unfold clampChain
  split_ifs <;> simp_all <;> omega

def insideInterior (pos : GridPosition) (parent : Block) : Prop :=
  parent.position.colStart ≤ pos.colStart ∧
    pos.colStart + pos.colSpan - 1 ≤ parent.position.colStart + parent.position.colSpan - 1 ∧
    parent.position.rowStart + 1 ≤ pos.rowStart ∧
    pos.rowStart + pos.rowSpan - 1 ≤ parent.position.rowStart + parent.position.rowSpan - 2

instance (pos : GridPosition) (parent : Block) : Decidable (insideInterior pos parent) :=
  inferInstanceAs (Decidable (_ ∧ _ ∧ _ ∧ _))

lemma constrainToParent_contained (childPos : GridPosition) (parent : Block)
    (hrows : 3 ≤ parent.position.rowSpan) (hcols : 1 ≤ parent.position.colSpan) :
    insideInterior (constrainToParent childPos parent) parent := by
  have hr : (max 1 (parent.position.rowSpan - 1 * 2) : Int) ≤
      (parent.position.rowStart + parent.position.rowSpan - 1 - 1) - (parent.position.rowStart + 1) + 1 := by
    omega
  have hc : (max 1 (parent.position.colSpan - 0 * 2) : Int) ≤
      (parent.position.colStart + parent.position.colSpan - 1 - 0) - (parent.position.colStart + 0) + 1 := by
    omega
  unfold constrainToParent insideInterior
  rcases hd : stackDirOf parent with _ | _ <;>
    simp only [hd, reduceCtorEq, reduceIte]
  · obtain ⟨hc1, hc2⟩ := clampChain_bounds _ _ _ childPos.colStart childPos.colSpan hc
    obtain ⟨hr1, hr2⟩ := clampChain_bounds _ _ _ (parent.position.rowStart + 1)
      (max 1 (parent.position.rowSpan - 1 * 2)) hr
    exact ⟨by omega, by omega, by omega, by omega⟩
  · obtain ⟨hc1, hc2⟩ := clampChain_bounds _ _ _ (parent.position.colStart + 0)
      (max 1 (parent.position.colSpan - 0 * 2)) hc
    obtain ⟨hr1, hr2⟩ := clampChain_bounds _ _ _ childPos.rowStart childPos.rowSpan hr
    exact ⟨by omega, by omega, by omega, by omega⟩

lemma pairStep_cases (moved : List String) (l : List Block) (i j : Nat) :
    pairStep moved l i j = (l, false) ∨
      ∃ k v b, l.get? k = some b ∧ b.position.rowStart < v ∧
        pairStep moved l i j = (updateAt k (setRowStart v) l, true) := by
  unfold pairStep
  by_cases hij : i = j
  · rw [if_pos hij]; left; rfl
  rw [if_neg hij]
  cases hi : l.get? i with
  | none => cases hj : l.get? j with
    | none => simp only [hi, hj]; exact Or.inl trivial
    | some b2 => simp only [hi, hj]; exact Or.inl trivial
  | some b1 =>
    cases hj : l.get? j with
    | none => simp only [hi, hj]; exact Or.inl trivial
    | some b2 =>
      simp only [hi, hj]
      split_ifs with h1 h2 h3 h4 h5 h6 h7 h8 h9 <;>
        first
          | (left; rfl)
          | (right; exact ⟨j, _, b2, hj, by omega, rfl⟩)
          | (right; exact ⟨i, _, b1, hi, by omega, rfl⟩)

lemma updateAt_nil (i : Nat) (f : Block → Block) : updateAt i f [] = [] := by
  cases i <;> rfl

lemma updateAt_cons_zero (f : Block → Block) (b : Block) (bs : List Block) :
    updateAt 0 f (b :: bs) = f b :: bs := rfl

lemma updateAt_cons_succ (i : Nat) (f : Block → Block) (b : Block) (bs : List Block) :
    updateAt (i + 1) f (b :: bs) = b :: updateAt i f bs := rfl

/-- Frame relation for the resolver: identity fields are preserved, and a
block without a parent keeps its column geometry and row span while its
`rowStart` can only grow. -/
def FrameRel (a b : Block) : Prop :=
  b.id = a.id ∧ b.type = a.type ∧ b.parentBlockId = a.parentBlockId ∧
    b.heroProperties = a.heroProperties ∧
    (a.parentBlockId = none →
      b.position.colStart = a.position.colStart ∧
      b.position.colSpan = a.position.colSpan ∧
      b.position.rowSpan = a.position.rowSpan ∧
      a.position.rowStart ≤ b.position.rowStart)

lemma frameRel_refl (a : Block) : FrameRel a a :=
  ⟨rfl, rfl, rfl, rfl, fun _ => ⟨rfl, rfl, rfl, le_refl _⟩⟩

lemma frameRel_trans {a b c : Block} (h : FrameRel a b) (g : FrameRel b c) :
    FrameRel a c := by
  obtain ⟨h1, h2, h3, h4, h5⟩ := h
  obtain ⟨g1, g2, g3, g4, g5⟩ := g
  refine ⟨g1.trans h1, g2.trans h2, g3.trans h3, g4.trans h4, fun hn => ?_⟩
  obtain ⟨p1, p2, p3, p4⟩ := h5 hn
  obtain ⟨q1, q2, q3, q4⟩ := g5 (h3.trans hn)
  exact ⟨q1.trans p1, q2.trans p2, q3.trans p3, le_trans p4 q4⟩

lemma forall₂_frame_refl (l : List Block) : List.Forall₂ FrameRel l l :=
  List.forall₂_same.mpr fun a _ => frameRel_refl a

lemma forall₂_frame_trans {l1 l2 l3 : List Block} (h : List.Forall₂ FrameRel l1 l2)
    (g : List.Forall₂ FrameRel l2 l3) : List.Forall₂ FrameRel l1 l3 := by
  induction h generalizing l3 with
  | nil => exact g
  | cons hab hl ih =>
    cases g with
    | cons hbc hl2 => exact List.Forall₂.cons (frameRel_trans hab hbc) (ih hl2)

lemma updateAt_get? (i : Nat) (f : Block → Block) (l : List Block) (j : Nat) :
    (updateAt i f l).get? j = if j = i then (l.get? i).map f else l.get? j := by
  induction l generalizing i j with
  | nil =>
    rw [updateAt_nil]
    cases i <;> cases j <;> split <;> rfl
  | cons b bs ih =>
    cases i with
    | zero =>
      rw [updateAt_cons_zero]
      cases j with
      | zero => rw [if_pos rfl]; rfl
      | succ j' => rw [if_neg (Nat.succ_ne_zero j')]; rfl
    | succ i' =>
      rw [updateAt_cons_succ]
      cases j with
      | zero => rw [if_neg fun h => Nat.succ_ne_zero i' h.symm]; rfl
      | succ j' =>
        show (updateAt i' f bs).get? j' = if j' + 1 = i' + 1 then (bs.get? i').map f else bs.get? j'
        rw [ih]
        by_cases h : j' = i'
        · rw [if_pos h, if_pos (by omega)]
        · rw [if_neg h, if_neg (by omega)]

lemma forall₂_frame_updateAt (i : Nat) (f : Block → Block) (l : List Block)
    (h : ∀ b, l.get? i = some b → FrameRel b (f b)) :
    List.Forall₂ FrameRel l (updateAt i f l) := by
  induction l generalizing i with
  | nil => rw [updateAt_nil]; exact List.Forall₂.nil
  | cons b bs ih =>
    cases i with
    | zero =>
      rw [updateAt_cons_zero]
      exact List.Forall₂.cons (h b rfl) (forall₂_frame_refl bs)
    | succ i' =>
      rw [updateAt_cons_succ]
      exact List.Forall₂.cons (frameRel_refl b) (ih i' (fun c hc => h c hc))

lemma constrainAt_frame (l : List Block) (i : Nat) :
    List.Forall₂ FrameRel l (constrainAt l i) := by
  unfold constrainAt
  cases hb : l.get? i with
  | none => exact forall₂_frame_refl l
  | some b1 =>
    dsimp only
    cases hp : b1.parentBlockId with
    | none => exact forall₂_frame_refl l
    | some pid =>
      dsimp only
      cases hf : l.find? (fun p => p.id == pid) with
      | none => exact forall₂_frame_refl l
      | some parent =>
        dsimp only
        refine forall₂_frame_updateAt i _ l fun b hbi => ?_
        have hb1 : b = b1 := by rw [hb] at hbi; exact (Option.some.inj hbi).symm
        subst hb1
        exact ⟨rfl, rfl, rfl, rfl, fun hn => by rw [hp] at hn; cases hn⟩

lemma pairStep_frame (moved : List String) (l : List Block) (i j : Nat) :
    List.Forall₂ FrameRel l (pairStep moved l i j).1 := by
  rcases pairStep_cases moved l i j with h | ⟨k, v, b, hk, hv, h⟩
  · rw [h]; exact forall₂_frame_refl l
  · rw [h]
    refine forall₂_frame_updateAt k _ l fun b' hb' => ?_
    have hbb : b' = b := by rw [hk] at hb'; exact (Option.some.inj hb').symm
    subst hbb
    exact ⟨rfl, rfl, rfl, rfl, fun _ => ⟨rfl, rfl, rfl, le_of_lt hv⟩⟩

lemma pairStep_false_id (moved : List String) (l : List Block) (i j : Nat)
    (h : (pairStep moved l i j).2 = false) : (pairStep moved l i j).1 = l := by
  rcases pairStep_cases moved l i j with h' | ⟨k, v, b, _, _, h'⟩
  · rw [h']
  · rw [h'] at h; cases h

lemma innerLoop_frame (moved : List String) (i : Nat) (l : List Block) (js : List Nat) :
    List.Forall₂ FrameRel l (innerLoop moved i l js).1 := by
  induction js generalizing l with
  | nil => exact forall₂_frame_refl l
  | cons j js ih =>
    exact forall₂_frame_trans (pairStep_frame moved l i j) (ih _)

lemma outerLoop_frame (moved : List String) (n : Nat) (l : List Block) (is : List Nat) :
    List.Forall₂ FrameRel l (outerLoop moved n l is).1 := by
  induction is generalizing l with
  | nil => exact forall₂_frame_refl l
  | cons i is ih =>
    exact forall₂_frame_trans (constrainAt_frame l i)
      (forall₂_frame_trans (innerLoop_frame moved i _ (List.range n)) (ih _))

lemma passes_frame (moved : List String) (fuel : Nat) (l : List Block) :
    List.Forall₂ FrameRel l (passes moved fuel l) := by
  induction fuel generalizing l with
  | zero => exact forall₂_frame_refl l
  | succ k ih =>
    show List.Forall₂ FrameRel l (let p := onePass moved l; if p.2 then passes moved k p.1 else p.1)
    by_cases hf : (onePass moved l).2
    · simp only [hf, if_true]
      exact forall₂_frame_trans (outerLoop_frame moved l.length l (List.range l.length)) (ih _)
    · simp only [hf]
      exact outerLoop_frame moved l.length l (List.range l.length)

lemma forall₂_mem_right {r : Block → Block → Prop} {l1 l2 : List Block} {b : Block}
    (h : List.Forall₂ r l1 l2) (hb : b ∈ l2) : ∃ a ∈ l1, r a b := by
  induction h with
  | nil => cases hb
  | cons hab hl ih =>
    rcases List.mem_cons.mp hb with rfl | hb'
    · exact ⟨_, List.mem_cons_self _ _, hab⟩
    · obtain ⟨a, ha, har⟩ := ih hb'
      exact ⟨a, List.mem_cons_of_mem _ ha, har⟩

/-- Decidable check that every block whose `parentBlockId` resolves to a
block in the layout sits inside that parent's interior. -/
def childrenContained (l : List Block) : Bool :=
  l.all fun c =>
    match c.parentBlockId with
    | none => true
    | some pid =>
      match l.find? (fun p => p.id == pid) with
      | none => true
      | some par => decide (insideInterior c.position par)

/-- Layout for the C2 counterexample: a horizontal Hero with two children
occupying the same columns; the resolver's sibling pushes fight its
re-clamping until the 100-pass cap and one child is left outside. -/
def exC2blocks : List Block :=
  [⟨"p", BlockType.hero, ⟨1, 10, 1, 5⟩, none, some StackDirection.horizontal⟩,
   ⟨"a", BlockType.stats, ⟨2, 2, 2, 3⟩, some "p", none⟩,
   ⟨"b", BlockType.stats, ⟨2, 2, 2, 3⟩, some "p", none⟩]

/-- Layout for the C3 counterexample: a vertical Hero whose child gets its
column geometry rewritten by the constrainer inside the resolver. -/
def exC3blocks : List Block :=
  [⟨"p", BlockType.hero, ⟨1, 6, 1, 10⟩, none, some StackDirection.vertical⟩,
   ⟨"c", BlockType.stats, ⟨5, 3, 2, 2⟩, some "p", none⟩]

/-- C5: the Containment Constrainer is idempotent: for every child position
and every container block (any position, any stack direction),
`constrain (constrain childPos container) container` equals
`constrain childPos container`. -/
theorem C5_constrain_idempotent (childPos : GridPosition) (container : Block) :
    constrainToParent (constrainToParent childPos container) container =
      constrainToParent childPos container :=
  constrainToParent_idem childPos container

/-- C5 witness: idempotence evaluated at a concrete child and container. -/
theorem C5_constrain_idempotent_witness :
    constrainToParent
        (constrainToParent ⟨7, 4, 9, 2⟩
          ⟨"p", BlockType.hero, ⟨1, 6, 1, 10⟩, none, some StackDirection.vertical⟩)
        ⟨"p", BlockType.hero, ⟨1, 6, 1, 10⟩, none, some StackDirection.vertical⟩ =
      constrainToParent ⟨7, 4, 9, 2⟩
        ⟨"p", BlockType.hero, ⟨1, 6, 1, 10⟩, none, some StackDirection.vertical⟩ :=
  C5_constrain_idempotent ⟨7, 4, 9, 2⟩
    ⟨"p", BlockType.hero, ⟨1, 6, 1, 10⟩, none, some StackDirection.vertical⟩

/-- C2 counterexample: after `resolve` (`moveBlock`) with empty `movedIds`
and overrides on `exC2blocks`, some block with a `parentId` is NOT inside
its parent's interior (child `a` is pushed to `rowStart = 5`, below
interior row 4), refuting the claimed containment invariant. -/
theorem C2_counterexample :
    childrenContained (moveBlock exC2blocks [] []) = false := by decide

/-- C2 amended: the Containment Constrainer itself always places a child
inside the parent's interior provided the interior is non-degenerate
(`rowSpan ≥ 3` and `colSpan ≥ 1`); the resolver re-applies it on every
pass but can exit at its 100-pass iteration cap with a child still outside
(see the counterexample). -/
theorem C2_constrain_contained (childPos : GridPosition) (parent : Block)
    (hrows : 3 ≤ parent.position.rowSpan) (hcols : 1 ≤ parent.position.colSpan) :
    insideInterior (constrainToParent childPos parent) parent :=
  constrainToParent_contained childPos parent hrows hcols

/-- C2 witness: the amended containment at a concrete child and parent. -/
theorem C2_constrain_contained_witness :
    ((3 : Int) ≤ (5 : Int) ∧ (1 : Int) ≤ (10 : Int)) ∧
      insideInterior
        (constrainToParent ⟨20, 2, 9, 4⟩
          ⟨"p", BlockType.hero, ⟨1, 10, 1, 5⟩, none, some StackDirection.horizontal⟩)
        ⟨"p", BlockType.hero, ⟨1, 10, 1, 5⟩, none, some StackDirection.horizontal⟩ :=
  ⟨⟨by norm_num, by norm_num⟩,
    C2_constrain_contained ⟨20, 2, 9, 4⟩
      ⟨"p", BlockType.hero, ⟨1, 10, 1, 5⟩, none, some StackDirection.horizontal⟩
      (by norm_num) (by norm_num)⟩

/-- C3 counterexample: the resolver does not only increase `rowStart`: on
`exC3blocks` the child's override-applied input has `colStart = 5`, but the
output has `colStart = 1` (the constrainer rewrote its column geometry). -/
theorem C3_counterexample :
    ¬ (∀ b ∈ moveBlock exC3blocks [] [], ∃ a ∈ applyOverrides [] exC3blocks,
        b.id = a.id ∧ b.position.colStart = a.position.colStart ∧
        b.position.colSpan = a.position.colSpan ∧
        b.position.rowSpan = a.position.rowSpan ∧
        a.position.rowStart ≤ b.position.rowStart) := by decide

/-- C3 amended: for every `resolve(layout, movedIds, overrides)` call,
every output block WITHOUT a `parentId` agrees with its override-applied
input in `colStart`, `colSpan` and `rowSpan`, and its `rowStart` only ever
increases; blocks with a `parentId` can additionally be re-clamped by the
Containment Constrainer. -/
theorem C3_root_frame_monotone (blocks : List Block) (moved : List String)
    (newPositions : List (String × GridPosition)) (b : Block)
    (hb : b ∈ moveBlock blocks moved newPositions)
    (hroot : b.parentBlockId = none) :
    ∃ a ∈ applyOverrides newPositions blocks, b.id = a.id ∧
      b.position.colStart = a.position.colStart ∧
      b.position.colSpan = a.position.colSpan ∧
      b.position.rowSpan = a.position.rowSpan ∧
      a.position.rowStart ≤ b.position.rowStart := by
  have hframe := passes_frame moved 100 (sortBlocks (applyOverrides newPositions blocks))
  obtain ⟨a, ha, har⟩ := forall₂_mem_right hframe hb
  obtain ⟨h1, _, h3, _, h5⟩ := har
  have haroot : a.parentBlockId = none := h3.symm.trans hroot
  obtain ⟨p1, p2, p3, p4⟩ := h5 haroot
  exact ⟨a, (List.perm_insertionSort blockLE _).subset ha, h1, p1, p2, p3, p4⟩

/-- C3 witness: the amended frame property evaluated on a one-block layout. -/
theorem C3_root_frame_monotone_witness :
    ∃ a ∈ applyOverrides [] [(⟨"r", BlockType.stats, ⟨2, 3, 4, 5⟩, none, none⟩ : Block)],
      (⟨"r", BlockType.stats, ⟨2, 3, 4, 5⟩, none, none⟩ : Block).id = a.id ∧
      (2 : Int) = a.position.colStart ∧ (3 : Int) = a.position.colSpan ∧
      (5 : Int) = a.position.rowSpan ∧ a.position.rowStart ≤ (4 : Int) :=
  C3_root_frame_monotone [⟨"r", BlockType.stats, ⟨2, 3, 4, 5⟩, none, none⟩] [] []
    ⟨"r", BlockType.stats, ⟨2, 3, 4, 5⟩, none, none⟩ (by decide) rfl

/-- Loop-exit flag of the resolver: `true` when the `while` loop of
`moveBlock` exits because a pass reported no collision (rather than by
hitting the 100-iteration cap). -/
def passesConv (moved : List String) : Nat → List Block → Bool
  | 0, _ => false
  | Nat.succ k, l =>
    let p := onePass moved l
    if p.2 then passesConv moved k p.1 else true

/-- Ids are pairwise distinct. -/
def uniqueIds (l : List Block) : Prop := (l.map Block.id).Nodup

/-- Nesting depth is at most one: a block referenced as a parent has no
parent itself. -/
def depthOne (l : List Block) : Prop :=
  ∀ b ∈ l, ∀ p ∈ l, b.parentBlockId = some p.id → p.parentBlockId = none

/-- The parent block a child is clamped against, when it resolves. -/
def parentOf (l : List Block) (b : Block) : Option Block :=
  b.parentBlockId.bind fun pid => l.find? fun p => p.id == pid

/-- A block is a fixpoint of the constrainer against its resolved parent. -/
def childClamped (l : List Block) (b : Block) : Prop :=
  ∀ p, parentOf l b = some p → b.position = constrainToParent b.position p

/-- No two distinct blocks of the layout buffer-violate. -/
def noViolations (l : List Block) : Prop :=
  ∀ a ∈ l, ∀ b ∈ l, a ≠ b → isBufferViolation a b = false

/-- A layout the resolver has nothing left to do on. -/
def settled (l : List Block) : Prop :=
  (∀ b ∈ l, childClamped l b) ∧ noViolations l

lemma bufferViolation_iff (a b : Block) :
    isBufferViolation a b = true ↔
      ¬(a.parentBlockId = some b.id ∨ b.parentBlockId = some a.id) ∧
        b.position.colStart < a.position.colStart + a.position.colSpan ∧
        a.position.colStart < b.position.colStart + b.position.colSpan ∧
        b.position.rowStart < a.position.rowStart + a.position.rowSpan ∧
        a.position.rowStart < b.position.rowStart + b.position.rowSpan := by
  unfold isBufferViolation isHorizontalOverlap
  split_ifs <;> simp_all <;> omega

lemma bufferViolation_symm (a b : Block) :
    isBufferViolation a b = isBufferViolation b a := by
  by_cases h : isBufferViolation a b = true
  · have h2 : isBufferViolation b a = true := by
      rw [bufferViolation_iff] at h ⊢
      tauto
    rw [h, h2]
  · have h2 : ¬ isBufferViolation b a = true := by
      rw [bufferViolation_iff] at h ⊢
      tauto
    rw [Bool.not_eq_true] at h h2
    rw [h, h2]

lemma updateAt_length (i : Nat) (f : Block → Block) (l : List Block) :
    (updateAt i f l).length = l.length := by
  induction l generalizing i with
  | nil => rw [updateAt_nil]
  | cons b bs ih =>
    cases i with
    | zero => rw [updateAt_cons_zero]; rfl
    | succ i' => rw [updateAt_cons_succ]; exact congrArg Nat.succ (ih i')

lemma updateAt_eq_self (i : Nat) (f : Block → Block) (l : List Block)
    (h : ∀ b, l.get? i = some b → f b = b) : updateAt i f l = l := by
  induction l generalizing i with
  | nil => exact updateAt_nil i f
  | cons b bs ih =>
    cases i with
    | zero => rw [updateAt_cons_zero, h b rfl]
    | succ i' => rw [updateAt_cons_succ, ih i' (fun c hc => h c hc)]

lemma constrainAt_length (l : List Block) (i : Nat) :
    (constrainAt l i).length = l.length := by
  unfold constrainAt
  cases hb : l.get? i with
  | none => rfl
  | some b1 =>
    dsimp only
    cases hp : b1.parentBlockId with
    | none => rfl
    | some pid =>
      dsimp only
      cases hf : l.find? (fun p => p.id == pid) with
      | none => rfl
      | some parent => exact updateAt_length i _ l

lemma constrainAt_get?_ne (l : List Block) (i k : Nat) (hk : k ≠ i) :
    (constrainAt l i).get? k = l.get? k := by
  unfold constrainAt
  cases hb : l.get? i with
  | none => rfl
  | some b1 =>
    dsimp only
    cases hp : b1.parentBlockId with
    | none => rfl
    | some pid =>
      dsimp only
      cases hf : l.find? (fun p => p.id == pid) with
      | none => rfl
      | some parent => rw [updateAt_get?, if_neg hk]

lemma constrainAt_get?_root (l : List Block) (i k : Nat) (b : Block)
    (hk : l.get? k = some b) (hroot : b.parentBlockId = none) :
    (constrainAt l i).get? k = some b := by
  by_cases hki : k = i
  · subst hki
    unfold constrainAt
    rw [hk]
    dsimp only
    rw [hroot]
    exact hk
  · rw [constrainAt_get?_ne l i k hki, hk]

lemma find?_index (l : List Block) (pred : Block → Bool) (q : Block)
    (h : l.find? pred = some q) :
    ∃ k, l.get? k = some q ∧ pred q = true ∧
      ∀ m, m < k → ∀ a, l.get? m = some a → pred a = false := by
  induction l with
  | nil => cases h
  | cons b bs ih =>
    cases hb : pred b with
    | true =>
      simp only [List.find?_cons, hb] at h
      have hbq : b = q := Option.some.inj h
      subst hbq
      exact ⟨0, rfl, hb, fun m hm a _ => absurd hm (Nat.not_lt_zero m)⟩
    | false =>
      simp only [List.find?_cons, hb] at h
      obtain ⟨k, hk, hq, hmin⟩ := ih h
      refine ⟨k + 1, hk, hq, ?_⟩
      intro m hm a ha
      cases m with
      | zero =>
        have hab : b = a := Option.some.inj ha
        rw [← hab]
        exact hb
      | succ m' => exact hmin m' (by omega) a ha

lemma find?_of_index (l : List Block) (pred : Block → Bool) (q : Block) (k : Nat)
    (hk : l.get? k = some q) (hq : pred q = true)
    (hmin : ∀ m, m < k → ∀ a, l.get? m = some a → pred a = false) :
    l.find? pred = some q := by
  induction l generalizing k with
  | nil => cases hk
  | cons b bs ih =>
    cases k with
    | zero =>
      have hb : b = q := Option.some.inj hk
      subst hb
      simp only [List.find?_cons, hq]
    | succ k' =>
      have hb : pred b = false := hmin 0 (Nat.succ_pos k') b rfl
      simp only [List.find?_cons, hb]
      exact ih k' hk (fun m hm a ha => hmin (m + 1) (by omega) a ha)

lemma forall₂_get? {r : Block → Block → Prop} {l l' : List Block}
    (h : List.Forall₂ r l l') (m : Nat) {a : Block} (ha : l.get? m = some a) :
    ∃ b, l'.get? m = some b ∧ r a b := by
  induction h generalizing m with
  | nil => cases ha
  | cons hab hl ih =>
    cases m with
    | zero => exact ⟨_, rfl, Option.some.inj ha ▸ hab⟩
    | succ m' => exact ih m' ha

lemma forall₂_get?_none {r : Block → Block → Prop} {l l' : List Block}
    (h : List.Forall₂ r l l') (m : Nat) (ha : l.get? m = none) : l'.get? m = none := by
  induction h generalizing m with
  | nil => rfl
  | cons hab hl ih =>
    cases m with
    | zero => cases ha
    | succ m' => exact ih m' ha

lemma forall₂_frame_ids {l l' : List Block} (h : List.Forall₂ FrameRel l l') :
    l'.map Block.id = l.map Block.id := by
  induction h with
  | nil => rfl
  | cons hab hl ih =>
    simp only [List.map_cons, ih, hab.1]

lemma uniqueIds_of_frame {l l' : List Block} (h : List.Forall₂ FrameRel l l')
    (hu : uniqueIds l) : uniqueIds l' := by
  unfold uniqueIds at hu ⊢
  rw [forall₂_frame_ids h]
  exact hu

lemma depthOne_of_frame {l l' : List Block} (h : List.Forall₂ FrameRel l l')
    (hd : depthOne l) : depthOne l' := by
  intro b hb p hp hbp
  obtain ⟨b0, hb0, hb0r⟩ := forall₂_mem_right h hb
  obtain ⟨p0, hp0, hp0r⟩ := forall₂_mem_right h hp
  have h1 : b0.parentBlockId = some p0.id := by
    rw [← hb0r.2.2.1, hbp, hp0r.1]
  have := hd b0 hb0 p0 hp0 h1
  rw [hp0r.2.2.1, this]

lemma innerLoop_false (moved : List String) (i : Nat) (l : List Block) (js : List Nat)
    (h : (innerLoop moved i l js).2 = false) :
    (innerLoop moved i l js).1 = l ∧ ∀ j ∈ js, pairStep moved l i j = (l, false) := by
  induction js generalizing l with
  | nil => exact ⟨rfl, fun j hj => absurd hj (List.not_mem_nil j)⟩
  | cons j js ih =>
    have hstep : (innerLoop moved i l (j :: js)).2 =
        ((pairStep moved l i j).2 || (innerLoop moved i (pairStep moved l i j).1 js).2) := rfl
    rw [hstep, Bool.or_eq_false_iff] at h
    obtain ⟨h1, h2⟩ := h
    have hid : (pairStep moved l i j).1 = l := pairStep_false_id moved l i j h1
    rw [hid] at h2
    obtain ⟨ih1, ih2⟩ := ih l h2
    constructor
    · show (innerLoop moved i (pairStep moved l i j).1 js).1 = l
      rw [hid]
      exact ih1
    · intro j' hj'
      rcases List.mem_cons.mp hj' with rfl | hj''
      · rw [Prod.ext_iff]
        exact ⟨hid, h1⟩
      · exact ih2 j' hj''

lemma outerLoop_cons (moved : List String) (n : Nat) (l : List Block) (i : Nat)
    (is : List Nat) :
    outerLoop moved n l (i :: is) =
      ((outerLoop moved n (innerLoop moved i (constrainAt l i) (List.range n)).1 is).1,
        (innerLoop moved i (constrainAt l i) (List.range n)).2 ||
          (outerLoop moved n (innerLoop moved i (constrainAt l i) (List.range n)).1 is).2) := rfl

lemma pairStep_noviol (l : List Block) (i j : Nat) (b1 b2 : Block)
    (hij : i ≠ j) (hi : l.get? i = some b1) (hj : l.get? j = some b2)
    (h : (pairStep [] l i j).2 = false) : isBufferViolation b1 b2 = false := by
  by_contra hviol
  rw [Bool.not_eq_false] at hviol
  have hrows := (bufferViolation_iff b1 b2).mp hviol
  unfold pairStep at h
  rw [if_neg hij] at h
  simp only [hi, hj, hviol, if_true] at h
  have hc1 : ([] : List String).contains b1.id = false := rfl
  have hc2 : ([] : List String).contains b2.id = false := rfl
  simp only [hc1, hc2, Bool.false_eq_true, and_self, if_false, not_false_iff, and_true,
    if_true, reduceIte] at h
  by_cases hu : b1.position.rowStart < b2.position.rowStart <;>
    simp only [hu, if_true, if_false, reduceIte] at h <;>
    [skip; skip] <;>
    · rw [if_pos (by omega)] at h
      cases h

lemma forall₂_get?_rev {r : Block → Block → Prop} {l l' : List Block}
    (h : List.Forall₂ r l l') (m : Nat) {b : Block} (hb : l'.get? m = some b) :
    ∃ a, l.get? m = some a ∧ r a b := by
  induction h generalizing m with
  | nil => cases hb
  | cons hab hl ih =>
    cases m with
    | zero => exact ⟨_, rfl, Option.some.inj hb ▸ hab⟩
    | succ m' => exact ih m' hb

lemma get?_some_of_lt (l : List Block) (i : Nat) (h : i < l.length) :
    ∃ b, l.get? i = some b := by
  cases hb : l.get? i with
  | none => exact absurd (List.get?_eq_none.mp hb) (by omega)
  | some b => exact ⟨b, rfl⟩

lemma outerLoop_false_settle (n : Nat) (is : List Nat) :
    ∀ l : List Block, (outerLoop [] n l is).2 = false → l.length = n → is.Nodup →
      (∀ i ∈ is, i < n) → depthOne l → uniqueIds l →
      (∀ k b, l.get? k = some b → k ∉ is → (outerLoop [] n l is).1.get? k = some b) ∧
      (∀ k b, l.get? k = some b → b.parentBlockId = none →
        (outerLoop [] n l is).1.get? k = some b) ∧
      (∀ k, k ∈ is → ∀ b', (outerLoop [] n l is).1.get? k = some b' →
        childClamped (outerLoop [] n l is).1 b') ∧
      (∀ k, k ∈ is → ∀ j, j ≠ k → ∀ a b', (outerLoop [] n l is).1.get? j = some a →
        (outerLoop [] n l is).1.get? k = some b' → isBufferViolation a b' = false) := by
  induction is with
  | nil =>
    intro l _ _ _ _ _ _
    exact ⟨fun k b hk _ => hk, fun k b hk _ => hk,
      fun k hk => absurd hk (List.not_mem_nil k),
      fun k hk => absurd hk (List.not_mem_nil k)⟩
  | cons i is ih =>
    intro l hflag hlen hnodup hbound hdepth huniq
    have hconsflag : (outerLoop [] n l (i :: is)).2 =
        ((innerLoop [] i (constrainAt l i) (List.range n)).2 ||
          (outerLoop [] n (innerLoop [] i (constrainAt l i) (List.range n)).1 is).2) := by
      rw [outerLoop_cons]
    rw [hconsflag, Bool.or_eq_false_iff] at hflag
    obtain ⟨hinnerflag, hrestflag⟩ := hflag
    obtain ⟨hinnerid, hpairs⟩ := innerLoop_false [] i (constrainAt l i) (List.range n) hinnerflag
    set l1 := constrainAt l i with hl1
    have hresval : (outerLoop [] n l (i :: is)).1 = (outerLoop [] n l1 is).1 := by
      rw [outerLoop_cons]
      dsimp only
      rw [hinnerid]
    rw [hinnerid] at hrestflag
    have hlen1 : l1.length = n := by rw [hl1, constrainAt_length]; exact hlen
    have hfr1 : List.Forall₂ FrameRel l l1 := constrainAt_frame l i
    have hd1 : depthOne l1 := depthOne_of_frame hfr1 hdepth
    have hu1 : uniqueIds l1 := uniqueIds_of_frame hfr1 huniq
    have hnd : i ∉ is := (List.nodup_cons.mp hnodup).1
    have hnodup1 : is.Nodup := (List.nodup_cons.mp hnodup).2
    have hbound1 : ∀ i' ∈ is, i' < n := fun i' hi' => hbound i' (List.mem_cons_of_mem i hi')
    have hilt : i < n := hbound i (List.mem_cons_self i is)
    obtain ⟨IH1, IH1b, IH2, IH3⟩ :=
      ih l1 hrestflag hlen1 hnodup1 hbound1 hd1 hu1
    set L' := (outerLoop [] n l1 is).1 with hL'
    have hfr2 : List.Forall₂ FrameRel l1 L' := outerLoop_frame [] n l1 is
    have hfr : List.Forall₂ FrameRel l L' := forall₂_frame_trans hfr1 hfr2
    -- the entry at i after its own constrain step survives to the end
    obtain ⟨c, hc⟩ := get?_some_of_lt l1 i (by omega)
    have hciL : L'.get? i = some c := IH1 i c hc hnd
    refine ⟨?_, ?_, ?_, ?_⟩
    · -- P1: untouched indices
      intro k b hk hkis
      rw [hresval]
      have hk1 : l1.get? k = some b := by
        rw [hl1, constrainAt_get?_ne l i k (fun he => hkis (he ▸ List.mem_cons_self i is))]
        exact hk
      exact IH1 k b hk1 (fun hx => hkis (List.mem_cons_of_mem i hx))
    · -- P1b: parentless entries survive
      intro k b hk hroot
      rw [hresval]
      exact IH1b k b (hl1 ▸ constrainAt_get?_root l i k b hk hroot) hroot
    · -- P2: processed entries are clamped
      intro k hk b' hb'
      rw [hresval] at hb' ⊢
      rcases List.mem_cons.mp hk with rfl | hkis
      · -- k is the freshly constrained index
        have hb'c : b' = c := by
          rw [hciL] at hb'
          exact (Option.some.inj hb').symm
        subst hb'c
        obtain ⟨b0, hb0⟩ := get?_some_of_lt l k (by omega)
        cases hp : b0.parentBlockId with
        | none =>
          have hll : l1 = l := by
            rw [hl1]
            unfold constrainAt
            rw [hb0]
            dsimp only
            rw [hp]
          have hcb0 : b' = b0 := by
            rw [hll, hb0] at hc
            exact (Option.some.inj hc).symm
          intro p hpar
          exfalso
          unfold parentOf at hpar
          rw [hcb0, hp, Option.none_bind] at hpar
          cases hpar
        | some pid =>
          cases hf : l.find? (fun p => p.id == pid) with
          | none =>
            have hll : l1 = l := by
              rw [hl1]
              unfold constrainAt
              rw [hb0]
              dsimp only
              rw [hp]
              dsimp only
              rw [hf]
            have hcb0 : b' = b0 := by
              rw [hll, hb0] at hc
              exact (Option.some.inj hc).symm
            intro p hpar
            exfalso
            unfold parentOf at hpar
            rw [hcb0, hp, Option.some_bind] at hpar
            have hnone : L'.find? (fun p => p.id == pid) = none := by
              rw [List.find?_eq_none] at hf ⊢
              intro x hx
              obtain ⟨x0, hx0, hx0r⟩ := forall₂_mem_right hfr hx
              have hxid : x.id = x0.id := hx0r.1
              simp only [hxid]
              exact hf x0 hx0
            rw [hnone] at hpar
            cases hpar
          | some q =>
            have hcval : b' = { b0 with position := constrainToParent b0.position q } := by
              have hgi : l1.get? k =
                  some { b0 with position := constrainToParent b0.position q } := by
                rw [hl1]
                unfold constrainAt
                rw [hb0]
                dsimp only
                rw [hp]
                dsimp only
                rw [hf]
                dsimp only
                rw [updateAt_get?, if_pos rfl, hb0, Option.map_some', hp]
              rw [hgi] at hc
              exact (Option.some.inj hc).symm
            obtain ⟨kq, hkq, hpredq, hmin⟩ := find?_index l _ q hf
            have hqid : q.id = pid := by
              have hx := of_decide_eq_true (by simpa using hpredq)
              exact hx
            have hqroot : q.parentBlockId = none := by
              refine hdepth b0 (List.get?_mem hb0) q (List.get?_mem hkq) ?_
              rw [hp, hqid]
            have hkqne : kq ≠ k := by
              intro he
              rw [he, hb0] at hkq
              have hqb : q = b0 := (Option.some.inj hkq).symm
              rw [hqb, hp] at hqroot
              cases hqroot
            have hkq1 : l1.get? kq = some q := by
              rw [hl1, constrainAt_get?_ne l k kq hkqne]
              exact hkq
            have hkqL : L'.get? kq = some q := IH1b kq q hkq1 hqroot
            have hfindL : L'.find? (fun p => p.id == pid) = some q := by
              refine find?_of_index L' _ q kq hkqL hpredq ?_
              intro m hm a' ha'
              obtain ⟨a0, ha0, ha0r⟩ := forall₂_get?_rev hfr m ha'
              have hida : a'.id = a0.id := ha0r.1
              have hfa := hmin m hm a0 ha0
              simpa [hida] using hfa
            intro p hpar
            unfold parentOf at hpar
            rw [hcval] at hpar
            dsimp only at hpar
            rw [hp, Option.some_bind, hfindL] at hpar
            have hpq : p = q := (Option.some.inj hpar).symm
            subst hpq
            rw [hcval]
            dsimp only
            rw [constrainToParent_idem]
      · exact IH2 k hkis b' hb'
    · -- P3: processed entries violate nothing
      intro k hk j hjk a b' ha hb'
      rw [hresval] at ha hb'
      rcases List.mem_cons.mp hk with rfl | hkis
      · have hb'c : b' = c := by
          rw [hciL] at hb'
          exact (Option.some.inj hb').symm
        subst hb'c
        by_cases hjis : j ∈ is
        · have hv := IH3 j hjis k hjk.symm b' a hciL ha
          rw [bufferViolation_symm]
          exact hv
        · obtain ⟨a1, ha1, _⟩ := forall₂_get?_rev hfr2 j ha
          have haL : L'.get? j = some a1 := IH1 j a1 ha1 hjis
          have haa1 : a = a1 := by
            rw [haL] at ha
            exact (Option.some.inj ha).symm
          subst haa1
          have hjn : j < n := by
            have hjl : j < l1.length := by
              by_contra hge
              rw [List.get?_eq_none.mpr (by omega)] at ha1
              cases ha1
            omega
          have hpair := hpairs j (List.mem_range.mpr hjn)
          have hflagj : (pairStep [] l1 k j).2 = false := by rw [hpair]
          have hv := pairStep_noviol l1 k j b' a hjk.symm hc ha1 hflagj
          rw [bufferViolation_symm]
          exact hv
      · exact IH3 k hkis j hjk a b' ha hb'

lemma mem_iff_get?' (l : List Block) (b : Block) : b ∈ l ↔ ∃ k, l.get? k = some b := by
  induction l with
  | nil =>
    constructor
    · intro h; cases h
    · rintro ⟨k, hk⟩; cases hk
  | cons c cs ih =>
    constructor
    · intro h
      rcases List.mem_cons.mp h with rfl | h'
      · exact ⟨0, rfl⟩
      · obtain ⟨k, hk⟩ := ih.mp h'
        exact ⟨k + 1, hk⟩
    · rintro ⟨k, hk⟩
      cases k with
      | zero => exact (Option.some.inj hk) ▸ List.mem_cons_self c cs
      | succ k' => exact List.mem_cons_of_mem c (ih.mpr ⟨k', hk⟩)

lemma uniqueIds_id_inj {l : List Block} (hu : uniqueIds l) {a b : Block}
    (ha : a ∈ l) (hb : b ∈ l) (hid : a.id = b.id) : a = b :=
  List.inj_on_of_nodup_map hu ha hb hid

lemma uniqueIds_get?_ne {l : List Block} (hu : uniqueIds l) {i j : Nat} {b1 b2 : Block}
    (hi : l.get? i = some b1) (hj : l.get? j = some b2) (hij : i ≠ j) : b1 ≠ b2 := by
  intro he
  subst he
  have h1 : (l.map Block.id).get? i = some b1.id := by
    rw [List.get?_map, hi]; rfl
  have h2 : (l.map Block.id).get? j = some b1.id := by
    rw [List.get?_map, hj]; rfl
  have hlt : i < (l.map Block.id).length := by
    by_contra hge
    rw [List.get?_eq_none.mpr (by omega)] at h1
    cases h1
  exact hij (List.get?_inj hlt hu (h1.trans h2.symm))

lemma onePass_false_settled (l : List Block) (hd : depthOne l) (hu : uniqueIds l)
    (hf : (onePass [] l).2 = false) : settled (onePass [] l).1 := by
  obtain ⟨P1, P1b, P2, P3⟩ := outerLoop_false_settle l.length (List.range l.length) l hf rfl
    (List.nodup_range _) (fun i hi => List.mem_range.mp hi) hd hu
  have hlenL : (onePass [] l).1.length = l.length :=
    ((outerLoop_frame [] l.length l (List.range l.length)).length_eq).symm
  constructor
  · intro b hb
    obtain ⟨k, hk⟩ := (mem_iff_get?' _ b).mp hb
    have hkn : k < l.length := by
      by_contra hge
      rw [List.get?_eq_none.mpr (by omega)] at hk
      cases hk
    exact P2 k (List.mem_range.mpr hkn) b hk
  · intro a ha b hb hab
    obtain ⟨ka, hka⟩ := (mem_iff_get?' _ a).mp ha
    obtain ⟨kb, hkb⟩ := (mem_iff_get?' _ b).mp hb
    have hkbn : kb < l.length := by
      by_contra hge
      rw [List.get?_eq_none.mpr (by omega)] at hkb
      cases hkb
    have hne : ka ≠ kb := by
      intro he
      rw [he, hkb] at hka
      exact hab (Option.some.inj hka).symm
    exact P3 kb (List.mem_range.mpr hkbn) ka hne a b hka hkb

lemma settled_constrainAt_id (l : List Block) (hs : settled l) (i : Nat) :
    constrainAt l i = l := by
  unfold constrainAt
  cases hb : l.get? i with
  | none => rfl
  | some b1 =>
    dsimp only
    cases hp : b1.parentBlockId with
    | none => rfl
    | some pid =>
      dsimp only
      cases hf : l.find? (fun p => p.id == pid) with
      | none => rfl
      | some parent =>
        refine updateAt_eq_self i _ l fun b hbi => ?_
        have hbb1 : b = b1 := by
          rw [hb] at hbi
          exact (Option.some.inj hbi).symm
        subst hbb1
        have hmem : b ∈ l := (mem_iff_get?' l b).mpr ⟨i, hb⟩
        have hpar : parentOf l b = some parent := by
          unfold parentOf
          rw [hp, Option.some_bind, hf]
        have hfix := hs.1 b hmem parent hpar
        rw [← hfix]

lemma settled_innerLoop_id (l : List Block) (hs : settled l) (hu : uniqueIds l)
    (i : Nat) (js : List Nat) : innerLoop [] i l js = (l, false) := by
  induction js with
  | nil => rfl
  | cons j js ih =>
    have hstep : pairStep [] l i j = (l, false) := by
      unfold pairStep
      by_cases hij : i = j
      · rw [if_pos hij]
      · rw [if_neg hij]
        cases hi : l.get? i with
        | none => rfl
        | some b1 =>
          cases hj : l.get? j with
          | none => rfl
          | some b2 =>
            dsimp only
            have hne : b1 ≠ b2 := uniqueIds_get?_ne hu hi hj hij
            have hmem1 : b1 ∈ l := (mem_iff_get?' l b1).mpr ⟨i, hi⟩
            have hmem2 : b2 ∈ l := (mem_iff_get?' l b2).mpr ⟨j, hj⟩
            have hv : isBufferViolation b1 b2 = false := hs.2 b1 hmem1 b2 hmem2 hne
            rw [if_neg (by rw [hv]; exact Bool.false_ne_true)]
    show ((innerLoop [] i (pairStep [] l i j).1 js).1,
      (pairStep [] l i j).2 || (innerLoop [] i (pairStep [] l i j).1 js).2) = (l, false)
    rw [hstep]
    dsimp only
    rw [ih]
    rfl

lemma settled_outerLoop_id (l : List Block) (hs : settled l) (hu : uniqueIds l)
    (n : Nat) (is : List Nat) : outerLoop [] n l is = (l, false) := by
  induction is with
  | nil => rfl
  | cons i is ih =>
    rw [outerLoop_cons, settled_constrainAt_id l hs i, settled_innerLoop_id l hs hu i _]
    dsimp only
    rw [ih]
    rfl

lemma settled_passes_id (l : List Block) (hs : settled l) (hu : uniqueIds l)
    (fuel : Nat) : passes [] fuel l = l := by
  cases fuel with
  | zero => rfl
  | succ k =>
    show (let p := onePass [] l; if p.2 then passes [] k p.1 else p.1) = l
    unfold onePass
    rw [settled_outerLoop_id l hs hu l.length (List.range l.length)]
    rfl

lemma uniqueIds_perm {l l' : List Block} (h : l.Perm l') (hu : uniqueIds l) :
    uniqueIds l' := by
  unfold uniqueIds at hu ⊢
  exact (List.Perm.nodup_iff (h.map Block.id)).mp hu

lemma depthOne_perm {l l' : List Block} (h : l.Perm l') (hd : depthOne l) :
    depthOne l' := by
  intro b hb p hp hbp
  exact hd b (h.mem_iff.mpr hb) p (h.mem_iff.mpr hp) hbp

lemma settled_perm {l l' : List Block} (h : l.Perm l') (hu : uniqueIds l)
    (hs : settled l) : settled l' := by
  constructor
  · intro b hb p hpar
    have hbl : b ∈ l := h.mem_iff.mpr hb
    unfold parentOf at hpar
    cases hp : b.parentBlockId with
    | none => rw [hp, Option.none_bind] at hpar; cases hpar
    | some pid =>
      rw [hp, Option.some_bind] at hpar
      have hpmem' : p ∈ l' := List.mem_of_find?_eq_some hpar
      have hpmem : p ∈ l := h.mem_iff.mpr hpmem'
      have hppred0 := List.find?_some hpar
      have hppred : (p.id == pid) = true := hppred0
      have hfl : l.find? (fun q => q.id == pid) ≠ none := by
        intro hn
        exact absurd hppred (by simpa using List.find?_eq_none.mp hn p hpmem)
      cases hf : l.find? (fun q => q.id == pid) with
      | none => exact absurd hf hfl
      | some p2 =>
        have hp2mem : p2 ∈ l := List.mem_of_find?_eq_some hf
        have hp2pred0 := List.find?_some hf
        have hp2pred : (p2.id == pid) = true := hp2pred0
        have hid2 : p2.id = pid := by simpa using hp2pred
        have hid1 : p.id = pid := by simpa using hppred
        have hpp : p2 = p := uniqueIds_id_inj hu hp2mem hpmem (hid2.trans hid1.symm)
        have hpol : parentOf l b = some p := by
          unfold parentOf
          rw [hp, Option.some_bind, hf, hpp]
        exact hs.1 b hbl p hpol
  · intro a ha b hb hab
    exact hs.2 a (h.mem_iff.mpr ha) b (h.mem_iff.mpr hb) hab

lemma applyOverrides_nil (blocks : List Block) : applyOverrides [] blocks = blocks := by
  have hmap : applyOverrides [] blocks = blocks.map (fun b => b) := rfl
  rw [hmap, List.map_id']

lemma passesConv_settled (fuel : Nat) :
    ∀ l : List Block, depthOne l → uniqueIds l → passesConv [] fuel l = true →
      settled (passes [] fuel l) := by
  induction fuel with
  | zero => intro l _ _ hc; cases hc
  | succ k ih =>
    intro l hd hu hc
    have hcs : passesConv [] (k + 1) l =
        (if (onePass [] l).2 then passesConv [] k (onePass [] l).1 else true) := rfl
    have hps : passes [] (k + 1) l =
        (if (onePass [] l).2 then passes [] k (onePass [] l).1 else (onePass [] l).1) := rfl
    rw [hps]
    rw [hcs] at hc
    cases hp2 : (onePass [] l).2 with
    | true =>
      rw [hp2, if_pos rfl] at hc
      rw [if_pos rfl]
      have hfr : List.Forall₂ FrameRel l (onePass [] l).1 :=
        outerLoop_frame [] l.length l (List.range l.length)
      exact ih (onePass [] l).1 (depthOne_of_frame hfr hd) (uniqueIds_of_frame hfr hu) hc
    | false =>
      rw [if_neg Bool.false_ne_true]
      exact onePass_false_settled l hd hu hp2

instance (l : List Block) : Decidable (uniqueIds l) :=
  inferInstanceAs (Decidable (List.Nodup _))

instance (l : List Block) : Decidable (depthOne l) :=
  inferInstanceAs
    (Decidable (∀ b ∈ l, ∀ p ∈ l, b.parentBlockId = some p.id → p.parentBlockId = none))

/-- Layout for the C4 counterexample: a two-level parent chain (`c` inside
`p` inside `q`).  The first resolve converges with `c` clamped into `p`'s
stale position; the second resolve re-clamps `c` into `p`'s new position
and then fights the grandparent `q` to the iteration cap. -/
def exC4blocks : List Block :=
  [⟨"q", BlockType.hero, ⟨1, 8, 1, 12⟩, none, some StackDirection.horizontal⟩,
   ⟨"p", BlockType.hero, ⟨1, 4, 30, 6⟩, some "q", some StackDirection.horizontal⟩,
   ⟨"c", BlockType.stats, ⟨20, 2, 1, 2⟩, some "p", none⟩]

/-- C4 counterexample: `resolve(resolve(L, [], {}), [], {})` differs from
`resolve(L, [], {})`: block `c` has `rowStart = 31` (and `rowSpan = 4`)
after one resolve but `rowStart = 13` (and `rowSpan = 8`) after two, so
the Collision Resolver is not idempotent. -/
theorem C4_counterexample :
    ((moveBlock exC4blocks [] []).find? (fun b => b.id == "c")).map
        (fun b => b.position.rowStart) = some 31 ∧
      ((moveBlock (moveBlock exC4blocks [] []) [] []).find? (fun b => b.id == "c")).map
        (fun b => b.position.rowStart) = some 13 := by
  decide

/-- C4 amended: when ids are distinct, nesting depth is at most one, and
the first resolve's pass loop converges before its 100-pass cap, a second
resolve returns the same layout up to reordering of the block list. -/
theorem C4_resolve_idempotent_of_converged (blocks : List Block)
    (hu : uniqueIds blocks) (hd : depthOne blocks)
    (hc : passesConv [] 100 (sortBlocks (applyOverrides [] blocks)) = true) :
    (moveBlock (moveBlock blocks [] []) [] []).Perm (moveBlock blocks [] []) := by
  have hpnil : (applyOverrides [] blocks).Perm blocks := by
    rw [applyOverrides_nil]
  have hperm0 : (sortBlocks (applyOverrides [] blocks)).Perm blocks :=
    (List.perm_insertionSort blockLE _).trans hpnil
  set L0 := sortBlocks (applyOverrides [] blocks) with hL0
  have hu0 : uniqueIds L0 := uniqueIds_perm hperm0.symm hu
  have hd0 : depthOne L0 := depthOne_perm hperm0.symm hd
  have hL1 : moveBlock blocks [] [] = passes [] 100 L0 := rfl
  have hsett : settled (passes [] 100 L0) := passesConv_settled 100 L0 hd0 hu0 hc
  have hfrL : List.Forall₂ FrameRel L0 (passes [] 100 L0) := passes_frame [] 100 L0
  have hu1 : uniqueIds (passes [] 100 L0) := uniqueIds_of_frame hfrL hu0
  have h2 : moveBlock (passes [] 100 L0) [] [] =
      passes [] 100 (sortBlocks (passes [] 100 L0)) := by
    unfold moveBlock
    rw [applyOverrides_nil]
  have hperm1 : (sortBlocks (passes [] 100 L0)).Perm (passes [] 100 L0) :=
    List.perm_insertionSort blockLE _
  have hsett1 : settled (sortBlocks (passes [] 100 L0)) := settled_perm hperm1.symm hu1 hsett
  have hu1s : uniqueIds (sortBlocks (passes [] 100 L0)) := uniqueIds_perm hperm1.symm hu1
  have hid : passes [] 100 (sortBlocks (passes [] 100 L0)) = sortBlocks (passes [] 100 L0) :=
    settled_passes_id _ hsett1 hu1s 100
  rw [hL1, h2, hid]
  exact hperm1

/-- C4 witness: the amended idempotence evaluated on a concrete layout. -/
theorem C4_resolve_idempotent_witness :
    (uniqueIds [(⟨"w", BlockType.stats, ⟨1, 2, 1, 2⟩, none, none⟩ : Block)] ∧
      depthOne [(⟨"w", BlockType.stats, ⟨1, 2, 1, 2⟩, none, none⟩ : Block)] ∧
      passesConv [] 100 (sortBlocks (applyOverrides []
        [(⟨"w", BlockType.stats, ⟨1, 2, 1, 2⟩, none, none⟩ : Block)])) = true) ∧
    (moveBlock (moveBlock [(⟨"w", BlockType.stats, ⟨1, 2, 1, 2⟩, none, none⟩ : Block)] [] [])
        [] []).Perm
      (moveBlock [(⟨"w", BlockType.stats, ⟨1, 2, 1, 2⟩, none, none⟩ : Block)] [] []) :=
  ⟨⟨by decide, by decide, by decide⟩,
    C4_resolve_idempotent_of_converged _ (by decide) (by decide) (by decide)⟩

/-- Per-block test of `findFreeSlot` (App.tsx lines 328-338): nested blocks
are ignored; a root block blocks candidate `(c, r)` of size `w × h` when
the column intervals overlap and the block's rows, expanded by a one-row
buffer above and below, intersect the candidate's rows. -/
def slotOverlaps (b : Block) (w h c r : Int) : Bool :=
  if b.parentBlockId.isSome then false
  else
    let colsOverlap := ¬ (c + w ≤ b.position.colStart ∨ c ≥ b.position.colStart + b.position.colSpan)
    if ¬ colsOverlap then false
    else
      let bStart := b.position.rowStart
      let bEnd := b.position.rowStart + b.position.rowSpan - 1
      max r (bStart - 1) ≤ min (r + h - 1) (bEnd + 1)

/-- `currentBlocks.some(...)` of the slot scan. -/
def slotBlocked (blocks : List Block) (w h c r : Int) : Bool :=
  blocks.any fun b => slotOverlaps b w h c r

/-- Inner column loop `for (c = 1; c <= cols - w + 1; c++)`, with the trip
count passed as structural fuel. -/
def findColAux (blocks : List Block) (w h r : Int) : Nat → Int → Option Int
  | 0, _ => none
  | Nat.succ fuel, c =>
    if slotBlocked blocks w h c r then findColAux blocks w h r fuel (c + 1) else some c

/-- Outer row loop `for (r = startRow; r < 200; r++)`, with the trip count
passed as structural fuel. -/
def findRowAux (blocks : List Block) (cols w h : Int) : Nat → Int → Option (Int × Int)
  | 0, _ => none
  | Nat.succ fuel, r =>
    match findColAux blocks w h r (cols - w + 1).toNat 1 with
    | some c => some (c, r)
    | none => findRowAux blocks cols w h fuel (r + 1)

/-- `findFreeSlot` (App.tsx lines 321-356): row-major first-fit scan over
rows `startRow..199` and columns `1..cols-w+1`; when the scan is
exhausted, fall back to column 1 one row below the lowest bottom edge. -/
def findFreeSlot (blocks : List Block) (cols w h startRow : Int) : Int × Int :=
  match findRowAux blocks cols w h (200 - startRow).toNat startRow with
  | some cr => cr
  | none =>
    (1, (blocks.foldl (fun m b => max m (b.position.rowStart + b.position.rowSpan)) 1) + 1)

lemma findColAux_some (blocks : List Block) (w h r : Int) :
    ∀ (fuel : Nat) (c0 c : Int), findColAux blocks w h r fuel c0 = some c →
      slotBlocked blocks w h c r = false ∧ c0 ≤ c ∧ c < c0 + fuel ∧
        ∀ c', c0 ≤ c' → c' < c → slotBlocked blocks w h c' r = true := by
  intro fuel
  induction fuel with
  | zero => intro c0 c h'; cases h'
  | succ fuel ih =>
    intro c0 c h'
    unfold findColAux at h'
    cases hb : slotBlocked blocks w h c0 r with
    | true =>
      rw [hb, if_pos rfl] at h'
      obtain ⟨h1, h2, h3, h4⟩ := ih (c0 + 1) c h'
      refine ⟨h1, by omega, by omega, ?_⟩
      intro c' hc1 hc2
      by_cases he : c' = c0
      · rw [he]; exact hb
      · exact h4 c' (by omega) hc2
    | false =>
      rw [hb, if_neg Bool.false_ne_true] at h'
      have hcc : c0 = c := Option.some.inj h'
      subst hcc
      exact ⟨hb, le_refl c0, by omega, fun c' hc1 hc2 => absurd hc1 (by omega)⟩

lemma findColAux_none (blocks : List Block) (w h r : Int) :
    ∀ (fuel : Nat) (c0 : Int), findColAux blocks w h r fuel c0 = none →
      ∀ c', c0 ≤ c' → c' < c0 + fuel → slotBlocked blocks w h c' r = true := by
  intro fuel
  induction fuel with
  | zero => intro c0 _ c' h1 h2; omega
  | succ fuel ih =>
    intro c0 h' c' hc1 hc2
    unfold findColAux at h'
    cases hb : slotBlocked blocks w h c0 r with
    | true =>
      rw [hb, if_pos rfl] at h'
      by_cases he : c' = c0
      · rw [he]; exact hb
      · exact ih (c0 + 1) h' c' (by omega) (by omega)
    | false =>
      rw [hb, if_neg Bool.false_ne_true] at h'
      cases h'

lemma findRowAux_some (blocks : List Block) (cols w h : Int) :
    ∀ (fuel : Nat) (r0 c r : Int), findRowAux blocks cols w h fuel r0 = some (c, r) →
      r0 ≤ r ∧ r < r0 + fuel ∧
        findColAux blocks w h r (cols - w + 1).toNat 1 = some c ∧
        ∀ r', r0 ≤ r' → r' < r → findColAux blocks w h r' (cols - w + 1).toNat 1 = none := by
  intro fuel
  induction fuel with
  | zero => intro r0 c r h'; cases h'
  | succ fuel ih =>
    intro r0 c r h'
    unfold findRowAux at h'
    cases hcol : findColAux blocks w h r0 (cols - w + 1).toNat 1 with
    | some c1 =>
      rw [hcol] at h'
      have hcr : c1 = c ∧ r0 = r := by
        have := Option.some.inj h'
        exact ⟨congrArg Prod.fst this, congrArg Prod.snd this⟩
      obtain ⟨rfl, rfl⟩ := hcr
      exact ⟨le_refl _, by omega, hcol, fun r' h1 h2 => absurd h1 (by omega)⟩
    | none =>
      rw [hcol] at h'
      obtain ⟨h1, h2, h3, h4⟩ := ih (r0 + 1) c r h'
      refine ⟨by omega, by omega, h3, ?_⟩
      intro r' hr1 hr2
      by_cases he : r' = r0
      · rw [he]; exact hcol
      · exact h4 r' (by omega) hr2

/-- Grid with one root `6 × 4` block at `(1,1)` (spec scenario 5). -/
def exC9blocks : List Block :=
  [⟨"z", BlockType.stats, ⟨1, 6, 1, 4⟩, none, none⟩]

/-- Layout for the C9 counterexample: column 1 is blocked through row 300,
column 2 is blocked (buffer included) through row 199 only. -/
def exC9capBlocks : List Block :=
  [⟨"x", BlockType.stats, ⟨1, 1, 1, 300⟩, none, none⟩,
   ⟨"y", BlockType.stats, ⟨2, 1, 1, 198⟩, none, none⟩]

/-- C9 counterexample: the claimed scan range `startRow..200` includes row
200, but the code's loop runs `r < 200`: on `exC9capBlocks` with a `1 × 1`
request on a 2-column grid, candidate `(col 2, row 200)` is free and inside
the claimed range, yet `findFreeSlot` returns the fallback `(1, 302)`
(row 302 is outside any scanned range), so the result is not the first
accepted candidate of a `startRow..200` scan. -/
theorem C9_counterexample :
    slotBlocked exC9capBlocks 1 1 2 200 = false ∧
      findFreeSlot exC9capBlocks 2 1 1 1 = (1, 302) := by
  decide

/-- C9 amended: `findSlot` scans rows `startRow..199` (the loop bound is
`r < 200`) and columns `1..gridColumns-width+1` left to right, and returns
the first candidate `(col, row)` not blocked by any root block's rectangle
expanded by a one-row buffer above and below; every earlier candidate in
row-major order is blocked. -/
theorem C9_first_fit (blocks : List Block) (cols w h startRow c r : Int)
    (hfound : findRowAux blocks cols w h (200 - startRow).toNat startRow = some (c, r)) :
    findFreeSlot blocks cols w h startRow = (c, r) ∧
      slotBlocked blocks w h c r = false ∧
      startRow ≤ r ∧ r ≤ 199 ∧ 1 ≤ c ∧ c ≤ cols - w + 1 ∧
      ∀ c' r' : Int, startRow ≤ r' → 1 ≤ c' → c' ≤ cols - w + 1 →
        (r' < r ∨ (r' = r ∧ c' < c)) → slotBlocked blocks w h c' r' = true := by
  obtain ⟨hr1, hr2, hcol, hrows⟩ := findRowAux_some blocks cols w h _ startRow c r hfound
  obtain ⟨hfree, hc1, hc2, hcols⟩ := findColAux_some blocks w h r _ 1 c hcol
  refine ⟨?_, hfree, hr1, by omega, hc1, by omega, ?_⟩
  · unfold findFreeSlot
    rw [hfound]
  · intro c' r' hsr hc1' hc2' hord
    rcases hord with hlt | ⟨rfl, hclt⟩
    · have hnone := hrows r' hsr hlt
      exact findColAux_none blocks w h r' _ 1 hnone c' hc1' (by omega)
    · exact hcols c' hc1' hclt

/-- C9 witness: on `exC9blocks` with a `6 × 4` request on a 12-column grid
the scan accepts `(col 7, row 1)` (spec scenario 5). -/
theorem C9_first_fit_witness :
    findFreeSlot exC9blocks 12 6 4 1 = (7, 1) ∧
      slotBlocked exC9blocks 6 4 7 1 = false ∧
      (1 : Int) ≤ 1 ∧ (1 : Int) ≤ 199 ∧ (1 : Int) ≤ 7 ∧ (7 : Int) ≤ 12 - 6 + 1 ∧
      ∀ c' r' : Int, 1 ≤ r' → 1 ≤ c' → c' ≤ 12 - 6 + 1 →
        (r' < 1 ∨ (r' = 1 ∧ c' < 7)) → slotBlocked exC9blocks 6 4 c' r' = true :=
  C9_first_fit exC9blocks 12 6 4 1 7 1 (by decide)

/-- One externally-proposed rectangle, as parsed from the recognition
service's JSON (geminiService.ts response schema): `type` plus four
required integer coordinate fields (`title`/`suggestedColor` are not
geometry and are omitted). -/
structure IngestItem where
  itemType : BlockType
  colStart : Int
  colSpan : Int
  rowStart : Int
  rowSpan : Int
deriving DecidableEq, Repr

/-- The ingestion mapping (geminiService.ts lines 93-104): `colStart` and
`colSpan` are each clamped into `[1, 12]`; `rowStart || 1` and
`rowSpan || 4` default only the falsy integer 0 (the schema marks all four
fields required integers).  The fresh `crypto.randomUUID()` id is modelled
by a caller-supplied distinct id. -/
def mapIngestItem (id : String) (it : IngestItem) : Block :=
  ⟨id, it.itemType,
    ⟨max 1 (min 12 it.colStart), max 1 (min 12 it.colSpan),
      if it.rowStart = 0 then 1 else it.rowStart,
      if it.rowSpan = 0 then 4 else it.rowSpan⟩,
    none, none⟩

def mapIngest : Nat → List IngestItem → List Block
  | _, [] => []
  | k, it :: its => mapIngestItem (String.append "block-" (toString k)) it :: mapIngest (k + 1) its

/-- `containsBlock` (geminiService.ts lines 9-19). -/
def containsBlock (parent child : Block) : Bool :=
  decide (child.position.colStart ≥ parent.position.colStart ∧
    child.position.colStart + child.position.colSpan ≤
      parent.position.colStart + parent.position.colSpan ∧
    child.position.rowStart ≥ parent.position.rowStart ∧
    child.position.rowStart + child.position.rowSpan ≤
      parent.position.rowStart + parent.position.rowSpan)

/-- Hero promotion performed when a parent catches its first child
(geminiService.ts lines 130-136): force the type to Hero and default the
stack direction when missing. -/
def promoteHero (b : Block) : Block :=
  if b.type ≠ BlockType.hero then
    { b with type := BlockType.hero, heroProperties := some StackDirection.horizontal }
  else if b.heroProperties.isNone then
    { b with heroProperties := some StackDirection.horizontal }
  else b

/-- Inner `j` loop of the hierarchy detection at parent index `i`
(geminiService.ts lines 121-138), walking the list with its index `j`:
each other block not yet assigned a parent and contained in `parent` gets
`parentBlockId := parent.id`. -/
def assignFrom (parent : Block) (i : Nat) : Nat → List Block → List Block
  | _, [] => []
  | j, c :: cs =>
    (if j ≠ i ∧ c.parentBlockId = none ∧ containsBlock parent c = true
        then { c with parentBlockId := some parent.id } else c) ::
      assignFrom parent i (j + 1) cs

/-- Whether the `j` loop at parent index `i` catches at least one child
(this is what triggers the hero promotion of the parent). -/
def anyCatch (parent : Block) (i : Nat) : Nat → List Block → Bool
  | _, [] => false
  | j, c :: cs =>
    (decide (j ≠ i) && decide (c.parentBlockId = none) && containsBlock parent c) ||
      anyCatch parent i (j + 1) cs

/-- One iteration of the outer hierarchy-detection loop
(geminiService.ts lines 113-140). -/
def hierarchyStep (l : List Block) (i : Nat) : List Block :=
  match l.get? i with
  | none => l
  | some parent =>
    if (3 ≤ parent.position.colSpan ∧ 3 ≤ parent.position.rowSpan) ∨
        parent.type = BlockType.hero then
      let l1 := assignFrom parent i 0 l
      if anyCatch parent i 0 l then updateAt i promoteHero l1 else l1
    else l

/-- Stable descending sort by rectangle area, the JS
`blocks.sort((a, b) => (b.colSpan*b.rowSpan) - (a.colSpan*a.rowSpan))`. -/
def areaOf (b : Block) : Int := b.position.colSpan * b.position.rowSpan

def areaGE (a b : Block) : Prop := areaOf b ≤ areaOf a

instance : DecidableRel areaGE := by
  intro a b
  unfold areaGE
  infer_instance

def sortByAreaDesc (l : List Block) : List Block :=
  l.insertionSort areaGE

/-- The containment-based hierarchy inference of
`reconstructLayoutFromImage` (geminiService.ts lines 106-142). -/
def inferHierarchy (l : List Block) : List Block :=
  (List.range l.length).foldl hierarchyStep (sortByAreaDesc l)

/-- The geometric post-processing of `reconstructLayoutFromImage`:
map the parsed items to blocks, then infer the hierarchy. -/
def reconstructBlocks (items : List IngestItem) : List Block :=
  inferHierarchy (mapIngest 0 items)

/-- C1 counterexample: ingest (a committed engine operation) violates the
claimed bounds invariant: the item `(colStart 10, colSpan 5)` passes both
individual clamps unchanged, and the resulting block has
`colStart + colSpan - 1 = 14 > 12 = gridColumns`. -/
theorem C1_counterexample :
    (reconstructBlocks [⟨BlockType.stats, 10, 5, 1, 4⟩]).all
        (fun b => decide (1 ≤ b.position.colStart ∧
          b.position.colStart + b.position.colSpan - 1 ≤ 12)) = false := by
  decide

/-- C1 amended: the add operation's slot (`findFreeSlot`) satisfies the
bounds (`1 ≤ col` and `col + w - 1 ≤ gridColumns` when `1 ≤ w ≤
gridColumns`), and the ingestion mapping clamps `colStart` and `colSpan`
each individually into `[1, 12]` — but not their sum, so
`colStart + colSpan - 1 ≤ gridColumns` can fail after ingest. -/
theorem C1_bounds (blocks : List Block) (cols w h startRow : Int)
    (hw1 : 1 ≤ w) (hw2 : w ≤ cols) (id : String) (it : IngestItem) :
    (1 ≤ (findFreeSlot blocks cols w h startRow).1 ∧
      (findFreeSlot blocks cols w h startRow).1 + w - 1 ≤ cols) ∧
    (1 ≤ (mapIngestItem id it).position.colStart ∧
      (mapIngestItem id it).position.colStart ≤ 12 ∧
      1 ≤ (mapIngestItem id it).position.colSpan ∧
      (mapIngestItem id it).position.colSpan ≤ 12) := by
  constructor
  · unfold findFreeSlot
    cases hfound : findRowAux blocks cols w h (200 - startRow).toNat startRow with
    | some cr =>
      dsimp only
      obtain ⟨_, _, hcol, _⟩ :=
        findRowAux_some blocks cols w h _ startRow cr.1 cr.2 (by rw [hfound])
      obtain ⟨_, hc1, hc2, _⟩ := findColAux_some blocks w h cr.2 _ 1 cr.1 hcol
      exact ⟨hc1, by omega⟩
    | none =>
      dsimp only
      exact ⟨le_refl 1, by omega⟩
  · unfold mapIngestItem
    dsimp only
    omega

/-- C1 witness: the amended bounds at concrete inputs. -/
theorem C1_bounds_witness :
    ((1 ≤ (findFreeSlot exC9blocks 12 6 4 1).1 ∧
      (findFreeSlot exC9blocks 12 6 4 1).1 + 6 - 1 ≤ 12) ∧
    (1 ≤ (mapIngestItem "block-0" ⟨BlockType.stats, 10, 5, 1, 4⟩).position.colStart ∧
      (mapIngestItem "block-0" ⟨BlockType.stats, 10, 5, 1, 4⟩).position.colStart ≤ 12 ∧
      1 ≤ (mapIngestItem "block-0" ⟨BlockType.stats, 10, 5, 1, 4⟩).position.colSpan ∧
      (mapIngestItem "block-0" ⟨BlockType.stats, 10, 5, 1, 4⟩).position.colSpan ≤ 12)) :=
  C1_bounds exC9blocks 12 6 4 1 (by norm_num) (by norm_num) "block-0"
    ⟨BlockType.stats, 10, 5, 1, 4⟩

lemma containsBlock_congr (a b a' b' : Block) (ha : a.position = a'.position)
    (hb : b.position = b'.position) : containsBlock a b = containsBlock a' b' := by
  unfold containsBlock
  rw [ha, hb]

lemma containsBlock_trans {a b c : Block} (h1 : containsBlock a b = true)
    (h2 : containsBlock b c = true) : containsBlock a c = true := by
  unfold containsBlock at *
  rw [decide_eq_true_eq] at *
  omega

lemma containsBlock_antisymm {a b : Block} (h1 : containsBlock a b = true)
    (h2 : containsBlock b a = true) : b.position = a.position := by
  unfold containsBlock at h1 h2
  rw [decide_eq_true_eq] at h1 h2
  rcases hb : b.position with ⟨bcs, bcsp, brs, brsp⟩
  rcases ha : a.position with ⟨acs, acsp, ars, arsp⟩
  rw [hb, ha] at h1 h2
  dsimp only at h1 h2
  rw [GridPosition.mk.injEq]
  refine ⟨?_, ?_, ?_, ?_⟩ <;> omega

lemma containsBlock_area_le {p c : Block} (h : containsBlock p c = true)
    (h1 : 1 ≤ c.position.colSpan) (h2 : 1 ≤ c.position.rowSpan) :
    areaOf c ≤ areaOf p := by
  unfold containsBlock at h
  rw [decide_eq_true_eq] at h
  unfold areaOf
  have hc : c.position.colSpan ≤ p.position.colSpan := by omega
  have hr : c.position.rowSpan ≤ p.position.rowSpan := by omega
  exact mul_le_mul hc hr (by omega) (by omega)

lemma containsBlock_area_eq {p c : Block} (h : containsBlock p c = true)
    (h1 : 1 ≤ c.position.colSpan) (h2 : 1 ≤ c.position.rowSpan)
    (harea : areaOf p ≤ areaOf c) : c.position = p.position := by
  unfold containsBlock at h
  rw [decide_eq_true_eq] at h
  unfold areaOf at harea
  have hc : c.position.colSpan ≤ p.position.colSpan := by omega
  have hr : c.position.rowSpan ≤ p.position.rowSpan := by omega
  have hsp : c.position.colSpan = p.position.colSpan := by
    by_contra hne
    have hlt : c.position.colSpan < p.position.colSpan := by omega
    have : c.position.colSpan * c.position.rowSpan < p.position.colSpan * p.position.rowSpan := by
      calc c.position.colSpan * c.position.rowSpan
          < p.position.colSpan * c.position.rowSpan :=
            mul_lt_mul_of_pos_right hlt (by omega)
        _ ≤ p.position.colSpan * p.position.rowSpan :=
            mul_le_mul_of_nonneg_left hr (by omega)
    omega
  have hsr : c.position.rowSpan = p.position.rowSpan := by
    by_contra hne
    have hlt : c.position.rowSpan < p.position.rowSpan := by omega
    have : c.position.colSpan * c.position.rowSpan < p.position.colSpan * p.position.rowSpan := by
      calc c.position.colSpan * c.position.rowSpan
          < c.position.colSpan * p.position.rowSpan :=
            mul_lt_mul_of_pos_left hlt (by omega)
        _ ≤ p.position.colSpan * p.position.rowSpan :=
            mul_le_mul_of_nonneg_right (by omega) (by omega)
    omega
  rcases hbp : c.position with ⟨ccs, ccsp, crs, crsp⟩
  rcases hap : p.position with ⟨pcs, pcsp, prs, prsp⟩
  rw [hbp, hap] at h hsp hsr
  dsimp only at h hsp hsr
  rw [GridPosition.mk.injEq]
  refine ⟨?_, ?_, ?_, ?_⟩ <;> omega

lemma promoteHero_id (b : Block) : (promoteHero b).id = b.id := by
  unfold promoteHero
  split_ifs <;> rfl

lemma promoteHero_position (b : Block) : (promoteHero b).position = b.position := by
  unfold promoteHero
  split_ifs <;> rfl

lemma promoteHero_parent (b : Block) : (promoteHero b).parentBlockId = b.parentBlockId := by
  unfold promoteHero
  split_ifs <;> rfl

lemma assignFrom_get? (parent : Block) (i : Nat) (l : List Block) :
    ∀ (j0 m : Nat), (assignFrom parent i j0 l).get? m = (l.get? m).map fun c =>
      if j0 + m ≠ i ∧ c.parentBlockId = none ∧ containsBlock parent c = true
        then { c with parentBlockId := some parent.id } else c := by
  induction l with
  | nil => intro j0 m; cases m <;> rfl
  | cons c cs ih =>
    intro j0 m
    cases m with
    | zero => rfl
    | succ m' =>
      show (assignFrom parent i (j0 + 1) cs).get? m' = (cs.get? m').map _
      rw [ih (j0 + 1) m']
      have harith : ∀ c' : Block,
          (if (j0 + 1) + m' ≠ i ∧ c'.parentBlockId = none ∧ containsBlock parent c' = true
            then { c' with parentBlockId := some parent.id } else c') =
          (if j0 + (m' + 1) ≠ i ∧ c'.parentBlockId = none ∧ containsBlock parent c' = true
            then { c' with parentBlockId := some parent.id } else c') := by
        intro c'
        have he : (j0 + 1) + m' = j0 + (m' + 1) := by omega
        rw [he]
      exact congrArg (fun f => Option.map f (cs.get? m')) (funext harith)

lemma assignFrom_length (parent : Block) (i : Nat) (l : List Block) :
    ∀ j0, (assignFrom parent i j0 l).length = l.length := by
  induction l with
  | nil => intro j0; rfl
  | cons c cs ih =>
    intro j0
    show (assignFrom parent i (j0 + 1) cs).length + 1 = cs.length + 1
    rw [ih (j0 + 1)]

lemma hierarchyStep_length (l : List Block) (i : Nat) :
    (hierarchyStep l i).length = l.length := by
  unfold hierarchyStep
  cases hb : l.get? i with
  | none => rfl
  | some parent =>
    dsimp only
    split_ifs
    · rw [updateAt_length, assignFrom_length]
    · rw [assignFrom_length]
    · rfl

/-- Guard of the outer hierarchy loop, on the original sorted entries:
`isLargeEnough || isHero` (geminiService.ts lines 117-120). -/
def hierGuard (b : Block) : Prop :=
  (3 ≤ b.position.colSpan ∧ 3 ≤ b.position.rowSpan) ∨ b.type = BlockType.hero

instance (b : Block) : Decidable (hierGuard b) := by
  unfold hierGuard
  infer_instance

/-- Ids and positions of the working list match the sorted input pointwise
(the loop never rewrites them). -/
def SkelInv (S s : List Block) : Prop :=
  ∀ m a b, s.get? m = some a → S.get? m = some b → a.id = b.id ∧ a.position = b.position

/-- Types of not-yet-processed entries are still the input types (hero
promotion only ever touches the entry being processed). -/
def TypeInv (S s : List Block) (t : Nat) : Prop :=
  ∀ m, t ≤ m → ∀ a b, s.get? m = some a → S.get? m = some b → a.type = b.type

/-- Every parent assignment so far points at an earlier-processed index
whose entry passed the guard and contains the child. -/
def AssignInv (S s : List Block) (t : Nat) : Prop :=
  ∀ m x pid, s.get? m = some x → x.parentBlockId = some pid →
    ∃ ip p c, ip < t ∧ ip ≠ m ∧ S.get? ip = some p ∧ S.get? m = some c ∧
      hierGuard p ∧ pid = p.id ∧ containsBlock p c = true

/-- Every block contained in an already-processed guard-passing entry has
been assigned a parent no later than that entry. -/
def CoverInv (S s : List Block) (t : Nat) : Prop :=
  ∀ ip p, ip < t → S.get? ip = some p → hierGuard p →
    ∀ m c, m ≠ ip → S.get? m = some c → containsBlock p c = true →
      ∃ x pid ic q, s.get? m = some x ∧ x.parentBlockId = some pid ∧
        ic ≤ ip ∧ S.get? ic = some q ∧ pid = q.id

lemma hierarchyStep_inv (S s : List Block) (t n : Nat) (hn : S.length = n)
    (hsl : s.length = n) (ht : t < n) (hske : SkelInv S s) (hty : TypeInv S s t)
    (hass : AssignInv S s t) (hcov : CoverInv S s t) :
    (hierarchyStep s t).length = n ∧ SkelInv S (hierarchyStep s t) ∧
      TypeInv S (hierarchyStep s t) (t + 1) ∧ AssignInv S (hierarchyStep s t) (t + 1) ∧
      CoverInv S (hierarchyStep s t) (t + 1) := by
  obtain ⟨parent, hpt⟩ := get?_some_of_lt s t (by omega)
  obtain ⟨pS, hpS⟩ := get?_some_of_lt S t (by omega)
  obtain ⟨hpid, hppos⟩ := hske t parent pS hpt hpS
  have hptype : parent.type = pS.type := hty t (le_refl t) parent pS hpt hpS
  have hguard : ((3 ≤ parent.position.colSpan ∧ 3 ≤ parent.position.rowSpan) ∨
      parent.type = BlockType.hero) ↔ hierGuard pS := by
    unfold hierGuard
    rw [hppos, hptype]
  have hstep : hierarchyStep s t =
      (if (3 ≤ parent.position.colSpan ∧ 3 ≤ parent.position.rowSpan) ∨
          parent.type = BlockType.hero then
        (if anyCatch parent t 0 s then updateAt t promoteHero (assignFrom parent t 0 s)
          else assignFrom parent t 0 s)
      else s) := by
    unfold hierarchyStep
    rw [hpt]
  by_cases hg : (3 ≤ parent.position.colSpan ∧ 3 ≤ parent.position.rowSpan) ∨
      parent.type = BlockType.hero
  case neg =>
    rw [hstep, if_neg hg]
    refine ⟨hsl, hske, fun m hm => hty m (by omega), ?_, ?_⟩
    · intro m x pid hx hxp
      obtain ⟨ip, p, c, h1, h2, h3, h4, h5, h6, h7⟩ := hass m x pid hx hxp
      exact ⟨ip, p, c, by omega, h2, h3, h4, h5, h6, h7⟩
    · intro ip p hip hp hgp m c hm hc hcont
      by_cases hipt : ip = t
      · subst hipt
        rw [hpS] at hp
        have hppS : p = pS := (Option.some.inj hp).symm
        subst hppS
        exact absurd (hguard.mpr hgp) hg
      · exact hcov ip p (by omega) hp hgp m c hm hc hcont
  case pos =>
    -- characterisation of the new entries
    have hentry : ∀ m, m ≠ t → ∀ x0, s.get? m = some x0 →
        (hierarchyStep s t).get? m =
          some (if m ≠ t ∧ x0.parentBlockId = none ∧ containsBlock parent x0 = true
            then { x0 with parentBlockId := some parent.id } else x0) := by
      intro m hm x0 hx0
      rw [hstep, if_pos hg]
      have hasg : (assignFrom parent t 0 s).get? m =
          some (if m ≠ t ∧ x0.parentBlockId = none ∧ containsBlock parent x0 = true
            then { x0 with parentBlockId := some parent.id } else x0) := by
        rw [assignFrom_get?, hx0, Option.map_some']
        simp only [Nat.zero_add]
      by_cases hcatch : anyCatch parent t 0 s = true
      · rw [if_pos hcatch, updateAt_get?, if_neg hm, hasg]
      · rw [if_neg hcatch]
        exact hasg
    have hentryt : ∃ xt, (hierarchyStep s t).get? t = some xt ∧ xt.id = parent.id ∧
        xt.position = parent.position ∧ xt.parentBlockId = parent.parentBlockId := by
      have hasg : (assignFrom parent t 0 s).get? t = some parent := by
        rw [assignFrom_get?, hpt, Option.map_some']
        have hz : ¬ (0 + t ≠ t ∧ parent.parentBlockId = none ∧
            containsBlock parent parent = true) := by
          intro hcontr
          exact absurd (Nat.zero_add t) hcontr.1
        rw [if_neg hz]
      rw [hstep, if_pos hg]
      by_cases hcatch : anyCatch parent t 0 s = true
      · refine ⟨promoteHero parent, ?_, promoteHero_id parent, promoteHero_position parent,
          promoteHero_parent parent⟩
        rw [if_pos hcatch, updateAt_get?, if_pos rfl, hasg, Option.map_some']
      · rw [if_neg hcatch]
        exact ⟨parent, hasg, rfl, rfl, rfl⟩
    have hlen' : (hierarchyStep s t).length = n := by
      rw [hierarchyStep_length]
      exact hsl
    refine ⟨hlen', ?_, ?_, ?_, ?_⟩
    · -- SkelInv
      intro m a b ha hb
      by_cases hm : m = t
      · subst hm
        obtain ⟨xt, hxt, hxtid, hxtpos, _⟩ := hentryt
        rw [hxt] at ha
        have hax : a = xt := (Option.some.inj ha).symm
        subst hax
        rw [hpS] at hb
        have hbp : b = pS := (Option.some.inj hb).symm
        subst hbp
        exact ⟨hxtid.trans hpid, hxtpos.trans hppos⟩
      · obtain ⟨x0, hx0⟩ := get?_some_of_lt s m (by
          have : m < (hierarchyStep s t).length := by
            by_contra hge
            rw [List.get?_eq_none.mpr (by omega)] at ha
            cases ha
          omega)
        rw [hentry m hm x0 hx0] at ha
        have hax : a = _ := (Option.some.inj ha).symm
        subst hax
        split_ifs
        · exact hske m x0 b hx0 hb
        · exact hske m x0 b hx0 hb
    · -- TypeInv at t+1
      intro m hm a b ha hb
      have hmt : m ≠ t := by omega
      obtain ⟨x0, hx0⟩ := get?_some_of_lt s m (by
        have : m < (hierarchyStep s t).length := by
          by_contra hge
          rw [List.get?_eq_none.mpr (by omega)] at ha
          cases ha
        omega)
      rw [hentry m hmt x0 hx0] at ha
      have hax : a = _ := (Option.some.inj ha).symm
      subst hax
      have hty0 := hty m (by omega) x0 b hx0 hb
      split_ifs
      · exact hty0
      · exact hty0
    · -- AssignInv at t+1
      intro m x pid hx hxp
      by_cases hm : m = t
      · subst hm
        obtain ⟨xt, hxt, _, _, hxtpar⟩ := hentryt
        rw [hxt] at hx
        have hax : x = xt := (Option.some.inj hx).symm
        subst hax
        rw [hxtpar] at hxp
        obtain ⟨ip, p, c, h1, h2, h3, h4, h5, h6, h7⟩ := hass m parent pid hpt hxp
        exact ⟨ip, p, c, by omega, h2, h3, h4, h5, h6, h7⟩
      · obtain ⟨x0, hx0⟩ := get?_some_of_lt s m (by
          have : m < (hierarchyStep s t).length := by
            by_contra hge
            rw [List.get?_eq_none.mpr (by omega)] at hx
            cases hx
          omega)
        rw [hentry m hm x0 hx0] at hx
        have hax : x = _ := (Option.some.inj hx).symm
        subst hax
        split_ifs at hxp with hcond
        · -- freshly assigned to parent t
          dsimp only at hxp
          have hpidv : pid = parent.id := (Option.some.inj hxp).symm
          obtain ⟨cS, hcS⟩ := get?_some_of_lt S m (by
            have : m < s.length := by
              by_contra hge
              rw [List.get?_eq_none.mpr (by omega)] at hx0
              cases hx0
            omega)
          obtain ⟨_, hcpos⟩ := hske m x0 cS hx0 hcS
          refine ⟨t, pS, cS, by omega, fun he => hm he.symm, hpS, hcS, hguard.mp hg,
            hpidv.trans hpid, ?_⟩
          rw [← containsBlock_congr parent x0 pS cS hppos hcpos]
          exact hcond.2.2
        · obtain ⟨ip, p, c, h1, h2, h3, h4, h5, h6, h7⟩ := hass m x0 pid hx0 hxp
          exact ⟨ip, p, c, by omega, h2, h3, h4, h5, h6, h7⟩
    · -- CoverInv at t+1
      intro ip p hip hp hgp m c hm hc hcont
      have hmn : m < n := by
        by_contra hge
        rw [List.get?_eq_none.mpr (by omega)] at hc
        cases hc
      by_cases hipt : ip = t
      · subst hipt
        rw [hpS] at hp
        have hppS : p = pS := (Option.some.inj hp).symm
        subst hppS
        obtain ⟨x0, hx0⟩ := get?_some_of_lt s m (by omega)
        obtain ⟨_, hx0pos⟩ := hske m x0 c hx0 hc
        cases hx0p : x0.parentBlockId with
        | none =>
          have hcond : m ≠ ip ∧ x0.parentBlockId = none ∧ containsBlock parent x0 = true := by
            refine ⟨hm, hx0p, ?_⟩
            rw [containsBlock_congr parent x0 p c hppos hx0pos]
            exact hcont
          refine ⟨{ x0 with parentBlockId := some parent.id }, parent.id, ip, p, ?_,
            rfl, le_refl ip, hpS, hpid⟩
          rw [hentry m hm x0 hx0, if_pos hcond]
        | some pid0 =>
          obtain ⟨ip0, p0, c0, g1, g2, g3, g4, g5, g6, g7⟩ := hass m x0 pid0 hx0 hx0p
          have hcond : ¬ (m ≠ ip ∧ x0.parentBlockId = none ∧
              containsBlock parent x0 = true) := by
            intro hcontr
            rw [hx0p] at hcontr
            cases hcontr.2.1
          refine ⟨x0, pid0, ip0, p0, ?_, hx0p, by omega, g3, g6⟩
          rw [hentry m hm x0 hx0, if_neg hcond]
      · obtain ⟨x, pid, ic, q, k1, k2, k3, k4, k5⟩ :=
          hcov ip p (by omega) hp hgp m c hm hc hcont
        by_cases hmt : m = t
        · subst hmt
          obtain ⟨xt, hxt, _, _, hxtpar⟩ := hentryt
          rw [hpt] at k1
          have hxpar : x = parent := (Option.some.inj k1).symm
          subst hxpar
          refine ⟨xt, pid, ic, q, hxt, ?_, k3, k4, k5⟩
          rw [hxtpar]
          exact k2
        · have hkeep : ¬ (x.parentBlockId = none) := by
            rw [k2]
            intro hcontr
            cases hcontr
          have hcond : ¬ (m ≠ t ∧ x.parentBlockId = none ∧
              containsBlock parent x = true) := fun hcontr => hkeep hcontr.2.1
          refine ⟨x, pid, ic, q, ?_, k2, k3, k4, k5⟩
          rw [hentry m hmt x k1, if_neg hcond]

lemma hierarchy_run (S : List Block) (n : Nat) (hn : S.length = n) :
    ∀ (k t : Nat) (s : List Block), t + k = n → s.length = n →
      SkelInv S s → TypeInv S s t → AssignInv S s t → CoverInv S s t →
      SkelInv S ((List.range' t k).foldl hierarchyStep s) ∧
        AssignInv S ((List.range' t k).foldl hierarchyStep s) n ∧
        CoverInv S ((List.range' t k).foldl hierarchyStep s) n ∧
        ((List.range' t k).foldl hierarchyStep s).length = n := by
  intro k
  induction k with
  | zero =>
    intro t s ht hsl h1 h2 h3 h4
    have htn : t = n := by omega
    subst htn
    exact ⟨h1, h3, h4, hsl⟩
  | succ k ih =>
    intro t s ht hsl h1 h2 h3 h4
    obtain ⟨hl', h1', h2', h3', h4'⟩ :=
      hierarchyStep_inv S s t n hn hsl (by omega) h1 h2 h3 h4
    have hfold : (List.range' t (k + 1)).foldl hierarchyStep s =
        (List.range' (t + 1) k).foldl hierarchyStep (hierarchyStep s t) := rfl
    rw [hfold]
    exact ih (t + 1) (hierarchyStep s t) (by omega) hl' h1' h2' h3' h4'

lemma sorted_area_get? {S : List Block} (hS : List.Sorted areaGE S) {i j : Nat}
    {a b : Block} (hij : i < j) (ha : S.get? i = some a) (hb : S.get? j = some b) :
    areaOf b ≤ areaOf a := by
  have hjl : j < S.length := by
    by_contra hge
    rw [List.get?_eq_none.mpr (by omega)] at hb
    cases hb
  have hil : i < S.length := by omega
  have hga : S.get ⟨i, hil⟩ = a := by
    have := List.get?_eq_get hil
    rw [this] at ha
    exact Option.some.inj ha
  have hgb : S.get ⟨j, hjl⟩ = b := by
    have := List.get?_eq_get hjl
    rw [this] at hb
    exact Option.some.inj hb
  have := hS.rel_get_of_lt (a := ⟨i, hil⟩) (b := ⟨j, hjl⟩) hij
  rw [hga, hgb] at this
  exact this

instance : IsTotal Block areaGE :=
  ⟨fun a b => (le_total (areaOf b) (areaOf a)).imp id id⟩

instance : IsTrans Block areaGE :=
  ⟨fun _ _ _ hab hbc => le_trans hbc hab⟩

/-- Layout for the C10 counterexample: two identical large rectangles.
Each catches the other as a child, creating a two-cycle of `parentId`s. -/
def exC10blocks : List Block :=
  [⟨"a", BlockType.stats, ⟨1, 4, 1, 4⟩, none, none⟩,
   ⟨"b", BlockType.stats, ⟨1, 4, 1, 4⟩, none, none⟩]

/-- C10 counterexample: after `inferHierarchy` on two identical `4 × 4`
rectangles, block `a` both carries a `parentId` (it points at `b`) and is
itself referenced as the `parentId` of `b` — a parent cycle of depth
greater than one. -/
theorem C10_counterexample :
    ∃ x ∈ inferHierarchy exC10blocks, ∃ y ∈ inferHierarchy exC10blocks,
      x.parentBlockId.isSome = true ∧ y.parentBlockId = some x.id := by
  decide

/-- C10 amended: on a flat input whose blocks have distinct ids, positive
spans and pairwise distinct rectangles, `inferHierarchy` produces nesting
of depth at most one and no `parentId` cycles: any block referenced as a
parent has no parent itself (equal input rectangles — the counterexample —
are excluded). -/
theorem C10_depth_at_most_one (l : List Block)
    (hflat : ∀ b ∈ l, b.parentBlockId = none)
    (hu : uniqueIds l)
    (hpos : ∀ b ∈ l, 1 ≤ b.position.colSpan ∧ 1 ≤ b.position.rowSpan)
    (hdist : ∀ a ∈ l, ∀ b ∈ l, a ≠ b → a.position ≠ b.position) :
    ∀ x ∈ inferHierarchy l, ∀ y ∈ inferHierarchy l,
      y.parentBlockId = some x.id → x.parentBlockId = none := by
  intro x hx y hy hyx
  by_contra hxp
  obtain ⟨p0, hp0⟩ := Option.ne_none_iff_exists'.mp hxp
  set S := sortByAreaDesc l with hSdef
  have hperm : S.Perm l := List.perm_insertionSort areaGE l
  have hSu : uniqueIds S := uniqueIds_perm hperm.symm hu
  have hSflat : ∀ b ∈ S, b.parentBlockId = none := fun b hb => hflat b (hperm.subset hb)
  have hSpos : ∀ b ∈ S, 1 ≤ b.position.colSpan ∧ 1 ≤ b.position.rowSpan :=
    fun b hb => hpos b (hperm.subset hb)
  have hSdist : ∀ a ∈ S, ∀ b ∈ S, a ≠ b → a.position ≠ b.position :=
    fun a ha b hb => hdist a (hperm.subset ha) b (hperm.subset hb)
  have hSsort : List.Sorted areaGE S := List.sorted_insertionSort areaGE l
  have hSlen : S.length = l.length := hperm.length_eq
  have hout : inferHierarchy l = (List.range' 0 l.length).foldl hierarchyStep S := by
    unfold inferHierarchy
    rw [List.range_eq_range']
  obtain ⟨hske, hass, hcov, hlen⟩ := hierarchy_run S l.length hSlen l.length 0 S (Nat.zero_add _) hSlen
    (fun m a b ha hb => by
      rw [ha] at hb
      exact ⟨congrArg Block.id (Option.some.inj hb),
        congrArg Block.position (Option.some.inj hb)⟩)
    (fun m _ a b ha hb => by
      rw [ha] at hb
      exact congrArg Block.type (Option.some.inj hb))
    (fun m z pid hz hzp => by
      exact absurd hzp (by rw [hSflat z ((mem_iff_get?' S z).mpr ⟨m, hz⟩)]; exact fun h => by cases h))
    (fun ip p hip => absurd hip (Nat.not_lt_zero ip))
  rw [hout] at hx hy
  set out := (List.range' 0 l.length).foldl hierarchyStep S with houtdef
  obtain ⟨kx, hkx⟩ := (mem_iff_get?' out x).mp hx
  obtain ⟨ky, hky⟩ := (mem_iff_get?' out y).mp hy
  have hkxn : kx < l.length := by
    by_contra hge
    rw [List.get?_eq_none.mpr (by omega)] at hkx
    cases hkx
  have hkyn : ky < l.length := by
    by_contra hge
    rw [List.get?_eq_none.mpr (by omega)] at hky
    cases hky
  obtain ⟨cx, hcx⟩ := get?_some_of_lt S kx (by omega)
  obtain ⟨cy, hcy⟩ := get?_some_of_lt S ky (by omega)
  obtain ⟨hxid, hxpos⟩ := hske kx x cx hkx hcx
  obtain ⟨hyid, hypos⟩ := hske ky y cy hky hcy
  -- the parent of y is the entry at index kx
  obtain ⟨ip, p, c, j1, j2, j3, j4, j5, j6, j7⟩ := hass ky y x.id hky hyx
  have hcyc : c = cy := by
    rw [hcy] at j4
    exact (Option.some.inj j4).symm
  rw [hcyc] at j7
  have hipkx : ip = kx := by
    have hidp : (S.map Block.id).get? ip = some x.id := by
      rw [List.get?_map, j3, Option.map_some', j6]
    have hidx : (S.map Block.id).get? kx = some x.id := by
      rw [List.get?_map, hcx, Option.map_some', hxid]
    have hlt : ip < (S.map Block.id).length := by
      rw [List.length_map]
      omega
    exact List.get?_inj hlt hSu (hidp.trans hidx.symm)
  rw [hipkx] at j2 j3
  have hpcx : p = cx := by
    rw [hcx] at j3
    exact (Option.some.inj j3).symm
  rw [hpcx] at j7
  -- x itself has a parent, at some index ipx
  obtain ⟨ipx, px, c', i1, i2, i3, i4, i5, i6, i7⟩ := hass kx x p0 hkx hp0
  have hcx' : c' = cx := by
    rw [hcx] at i4
    exact (Option.some.inj i4).symm
  rw [hcx'] at i7
  -- px contains cx contains cy
  have hcont : containsBlock px cy = true := containsBlock_trans i7 j7
  by_cases hkyipx : ky = ipx
  · -- cy and px are the same entry: mutual containment forces equal rects
    have hcy2 : S.get? ipx = some cy := by
      rw [← hkyipx]
      exact hcy
    have hpxcy : px = cy := by
      rw [hcy2] at i3
      exact (Option.some.inj i3).symm
    have hcycx : containsBlock cy cx = true := by
      rw [← hpxcy]
      exact i7
    have hposeq : cy.position = cx.position := containsBlock_antisymm j7 hcycx
    have hne : cy ≠ cx := uniqueIds_get?_ne hSu hcy hcx (fun he => j2 he.symm)
    exact hSdist cy ((mem_iff_get?' S cy).mpr ⟨ky, hcy⟩) cx
      ((mem_iff_get?' S cx).mpr ⟨kx, hcx⟩) hne hposeq
  · -- coverage forces kx ≤ ipx, sortedness then forces equal areas
    obtain ⟨y', pid', ic, q, m1, m2, m3, m4, m5⟩ :=
      hcov ipx px i1 i3 i5 ky cy hkyipx hcy hcont
    have hy'y : y' = y := by
      rw [hky] at m1
      exact (Option.some.inj m1).symm
    rw [hy'y] at m2
    have hpid' : pid' = x.id := by
      rw [hyx] at m2
      exact (Option.some.inj m2).symm
    rw [hpid'] at m5
    have hickx : ic = kx := by
      have hidq : (S.map Block.id).get? ic = some x.id := by
        rw [List.get?_map, m4, Option.map_some', ← m5]
      have hidx : (S.map Block.id).get? kx = some x.id := by
        rw [List.get?_map, hcx, Option.map_some', hxid]
      have hlt : ic < (S.map Block.id).length := by
        rw [List.length_map]
        omega
      exact List.get?_inj hlt hSu (hidq.trans hidx.symm)
    have hkxle : kx ≤ ipx := by
      rw [← hickx]
      exact m3
    have hkxlt : kx < ipx := lt_of_le_of_ne hkxle (fun he => i2 he.symm)
    have hcxpos := hSpos cx ((mem_iff_get?' S cx).mpr ⟨kx, hcx⟩)
    have harea_ge : areaOf px ≤ areaOf cx := sorted_area_get? hSsort hkxlt hcx i3
    have hposeq : cx.position = px.position :=
      containsBlock_area_eq i7 hcxpos.1 hcxpos.2 harea_ge
    have hne : cx ≠ px := uniqueIds_get?_ne hSu hcx i3 (by omega)
    exact hSdist cx ((mem_iff_get?' S cx).mpr ⟨kx, hcx⟩) px
      ((mem_iff_get?' S px).mpr ⟨ipx, i3⟩) hne hposeq

/-- Nested ingest example for the C10 witness: a large hero `g` containing
two distinct smaller blocks. -/
def exC10nested : List Block :=
  [⟨"s", BlockType.stats, ⟨2, 2, 2, 2⟩, none, none⟩,
   ⟨"m", BlockType.stats, ⟨1, 6, 1, 6⟩, none, none⟩,
   ⟨"g", BlockType.hero, ⟨1, 10, 1, 10⟩, none, some StackDirection.horizontal⟩]

def exC10xg : Block :=
  ⟨"g", BlockType.hero, ⟨1, 10, 1, 10⟩, none, some StackDirection.horizontal⟩

def exC10ym : Block := ⟨"m", BlockType.stats, ⟨1, 6, 1, 6⟩, some "g", none⟩

/-- C10 witness: the amended depth bound on a concrete nested ingest —
`m` ends up parented to `g`, and `g` itself has no parent. -/
theorem C10_depth_witness :
    exC10xg ∈ inferHierarchy exC10nested ∧ exC10ym ∈ inferHierarchy exC10nested ∧
    exC10ym.parentBlockId = some exC10xg.id ∧ exC10xg.parentBlockId = none :=
  ⟨by decide, by decide, by decide,
    C10_depth_at_most_one exC10nested (by decide) (by decide) (by decide) (by decide)
      exC10xg (by decide) exC10ym (by decide) (by decide)⟩

/-! ### Even redistribution on stack-direction change (App.tsx 477-577) -/

/-- Stable sort order of a container's children used by the redistribution:
by `colStart` for a horizontal stack, by `rowStart` for a vertical one. -/
def redistLE (sd : StackDirection) (a b : Block) : Prop :=
  match sd with
  | StackDirection.horizontal => a.position.colStart ≤ b.position.colStart
  | StackDirection.vertical => a.position.rowStart ≤ b.position.rowStart

instance instDecRedistLE (sd : StackDirection) : DecidableRel (redistLE sd) := fun a b =>
  match sd with
  | StackDirection.horizontal =>
      inferInstanceAs (Decidable (a.position.colStart ≤ b.position.colStart))
  | StackDirection.vertical =>
      inferInstanceAs (Decidable (a.position.rowStart ≤ b.position.rowStart))

/-- New container spans after a stack-direction change (`newHeroColSpan`,
`newHeroRowSpan` in the source; `minChildDim = 2`, `padding = 2`). -/
def newHeroSpans (sd : StackDirection) (heroPos : GridPosition) (count : Nat) : Int × Int :=
  match sd with
  | StackDirection.horizontal =>
      (max 5 (max ((count : Int) * 2 + 2) heroPos.colSpan), max 3 heroPos.rowSpan)
  | StackDirection.vertical =>
      (max 5 heroPos.colSpan, max 3 (max ((count : Int) * 2 + 2) heroPos.rowSpan))

/-- `availableWidth` and `availableHeight` of the redistribution. -/
def redistAvail (sd : StackDirection) (heroPos : GridPosition) (count : Nat) : Int × Int :=
  (max 1 ((newHeroSpans sd heroPos count).1 - 2), max 1 ((newHeroSpans sd heroPos count).2 - 2))

/-- The interior extent along the distribution axis. -/
def interiorExtent (sd : StackDirection) (heroPos : GridPosition) (count : Nat) : Int :=
  match sd with
  | StackDirection.horizontal => (redistAvail sd heroPos count).1
  | StackDirection.vertical => (redistAvail sd heroPos count).2

/-- The `sortedChildren.map` of the source: walks the sorted children with a
running cursor (`currentX` / `currentY`), giving the child at index `idx` the
extent `base + (idx < rem ? 1 : 0)` along the distribution axis and stretching
it across the full interior of the cross axis. -/
def placeChildren (sd : StackDirection) (startX startY availableWidth availableHeight base rem : Int) :
    List Block → Nat → Int → List Block
  | [], _, _ => []
  | child :: rest, idx, cur =>
    match sd with
    | StackDirection.horizontal =>
      let childW := base + (if (idx : Int) < rem then 1 else 0)
      { child with position := ⟨cur, childW, startY, availableHeight⟩ } ::
        placeChildren StackDirection.horizontal startX startY availableWidth availableHeight
          base rem rest (idx + 1) (cur + childW)
    | StackDirection.vertical =>
      let childH := base + (if (idx : Int) < rem then 1 else 0)
      { child with position := ⟨startX, availableWidth, cur, childH⟩ } ::
        placeChildren StackDirection.vertical startX startY availableWidth availableHeight
          base rem rest (idx + 1) (cur + childH)

/-- Redistribution of one container's children on a stack-direction change.
`Math.floor` and `%` are `Int.fdiv` / `Int.fmod` (the operands are a
nonnegative extent and a positive count wherever a child exists, so floor,
euclidean and truncated division all agree with the JavaScript values). -/
def redistributeChildren (hero : Block) (children : List Block) : List Block :=
  match hero.heroProperties with
  | none => children
  | some stackDirection =>
    let heroPos := hero.position
    let count := children.length
    let avail := redistAvail stackDirection heroPos count
    let startX := heroPos.colStart + 1
    let startY := heroPos.rowStart + 1
    let sortedChildren := List.insertionSort (redistLE stackDirection) children
    match stackDirection with
    | StackDirection.horizontal =>
      placeChildren StackDirection.horizontal startX startY avail.1 avail.2
        (Int.fdiv avail.1 (count : Int)) (Int.fmod avail.1 (count : Int)) sortedChildren 0 startX
    | StackDirection.vertical =>
      placeChildren StackDirection.vertical startX startY avail.1 avail.2
        (Int.fdiv avail.2 (count : Int)) (Int.fmod avail.2 (count : Int)) sortedChildren 0 startY

/-- Coordinate of a position along the distribution axis. -/
def axisStart (sd : StackDirection) (p : GridPosition) : Int :=
  match sd with
  | StackDirection.horizontal => p.colStart
  | StackDirection.vertical => p.rowStart

/-- Extent of a position along the distribution axis. -/
def axisSpan (sd : StackDirection) (p : GridPosition) : Int :=
  match sd with
  | StackDirection.horizontal => p.colSpan
  | StackDirection.vertical => p.rowSpan

/-- Number of indices `idx, idx+1, …, idx+len-1` that are below `rem`. -/
def bonus (rem : Int) : Nat → Nat → Int
  | _, 0 => 0
  | idx, len + 1 => (if (idx : Int) < rem then 1 else 0) + bonus rem (idx + 1) len

lemma placeChildren_length (sd : StackDirection) (sX sY aW aH base rem : Int) :
    ∀ (cs : List Block) (idx : Nat) (cur : Int),
      (placeChildren sd sX sY aW aH base rem cs idx cur).length = cs.length := by
  intro cs
  induction cs with
  | nil => intro idx cur; cases sd <;> rfl
  | cons c rest ih =>
    intro idx cur
    cases sd <;> simp only [placeChildren, List.length_cons, ih]

lemma placeChildren_span (sd : StackDirection) (sX sY aW aH base rem : Int) :
    ∀ (cs : List Block) (idx : Nat) (cur : Int) (i : Nat) (b : Block),
      (placeChildren sd sX sY aW aH base rem cs idx cur).get? i = some b →
      axisSpan sd b.position = base + (if ((idx + i : Nat) : Int) < rem then 1 else 0) := by
  intro cs
  induction cs with
  | nil =>
    intro idx cur i b hb
    cases sd <;> cases i <;> cases hb
  | cons c rest ih =>
    intro idx cur i b hb
    cases sd with
    | horizontal =>
      cases i with
      | zero =>
        have hb' : b = { c with position :=
            ⟨cur, base + (if (idx : Int) < rem then 1 else 0), sY, aH⟩ } :=
          (Option.some.inj hb).symm
        rw [hb']
        simp [axisSpan, Nat.add_zero]
      | succ i' =>
        have hb' : (placeChildren StackDirection.horizontal sX sY aW aH base rem rest (idx + 1)
            (cur + (base + (if (idx : Int) < rem then 1 else 0)))).get? i' = some b := hb
        have := ih (idx + 1) (cur + (base + (if (idx : Int) < rem then 1 else 0))) i' b hb'
        rw [this]
        have harith : idx + 1 + i' = idx + (i' + 1) := by omega
        rw [harith]
    | vertical =>
      cases i with
      | zero =>
        have hb' : b = { c with position :=
            ⟨sX, aW, cur, base + (if (idx : Int) < rem then 1 else 0)⟩ } :=
          (Option.some.inj hb).symm
        rw [hb']
        simp [axisSpan, Nat.add_zero]
      | succ i' =>
        have hb' : (placeChildren StackDirection.vertical sX sY aW aH base rem rest (idx + 1)
            (cur + (base + (if (idx : Int) < rem then 1 else 0)))).get? i' = some b := hb
        have := ih (idx + 1) (cur + (base + (if (idx : Int) < rem then 1 else 0))) i' b hb'
        rw [this]
        have harith : idx + 1 + i' = idx + (i' + 1) := by omega
        rw [harith]

lemma placeChildren_start0 (sd : StackDirection) (sX sY aW aH base rem : Int) :
    ∀ (cs : List Block) (idx : Nat) (cur : Int) (b : Block),
      (placeChildren sd sX sY aW aH base rem cs idx cur).get? 0 = some b →
      axisStart sd b.position = cur := by
  intro cs idx cur b hb
  cases cs with
  | nil => cases sd <;> cases hb
  | cons c rest =>
    cases sd with
    | horizontal =>
      have hb' : b = { c with position :=
          ⟨cur, base + (if (idx : Int) < rem then 1 else 0), sY, aH⟩ } :=
        (Option.some.inj hb).symm
      rw [hb']
      rfl
    | vertical =>
      have hb' : b = { c with position :=
          ⟨sX, aW, cur, base + (if (idx : Int) < rem then 1 else 0)⟩ } :=
        (Option.some.inj hb).symm
      rw [hb']
      rfl

lemma placeChildren_chain (sd : StackDirection) (sX sY aW aH base rem : Int) :
    ∀ (cs : List Block) (idx : Nat) (cur : Int) (i : Nat) (a b : Block),
      (placeChildren sd sX sY aW aH base rem cs idx cur).get? i = some a →
      (placeChildren sd sX sY aW aH base rem cs idx cur).get? (i + 1) = some b →
      axisStart sd b.position = axisStart sd a.position + axisSpan sd a.position := by
  intro cs
  induction cs with
  | nil =>
    intro idx cur i a b ha hb
    cases sd <;> cases i <;> cases ha
  | cons c rest ih =>
    intro idx cur i a b ha hb
    cases sd with
    | horizontal =>
      cases i with
      | zero =>
        have ha' : a = { c with position :=
            ⟨cur, base + (if (idx : Int) < rem then 1 else 0), sY, aH⟩ } :=
          (Option.some.inj ha).symm
        have hb' : (placeChildren StackDirection.horizontal sX sY aW aH base rem rest (idx + 1)
            (cur + (base + (if (idx : Int) < rem then 1 else 0)))).get? 0 = some b := hb
        have := placeChildren_start0 StackDirection.horizontal sX sY aW aH base rem rest
          (idx + 1) (cur + (base + (if (idx : Int) < rem then 1 else 0))) b hb'
        rw [this, ha']
        rfl
      | succ i' =>
        exact ih (idx + 1) (cur + (base + (if (idx : Int) < rem then 1 else 0))) i' a b ha hb
    | vertical =>
      cases i with
      | zero =>
        have ha' : a = { c with position :=
            ⟨sX, aW, cur, base + (if (idx : Int) < rem then 1 else 0)⟩ } :=
          (Option.some.inj ha).symm
        have hb' : (placeChildren StackDirection.vertical sX sY aW aH base rem rest (idx + 1)
            (cur + (base + (if (idx : Int) < rem then 1 else 0)))).get? 0 = some b := hb
        have := placeChildren_start0 StackDirection.vertical sX sY aW aH base rem rest
          (idx + 1) (cur + (base + (if (idx : Int) < rem then 1 else 0))) b hb'
        rw [this, ha']
        rfl
      | succ i' =>
        exact ih (idx + 1) (cur + (base + (if (idx : Int) < rem then 1 else 0))) i' a b ha hb

lemma placeChildren_sum (sd : StackDirection) (sX sY aW aH base rem : Int) :
    ∀ (cs : List Block) (idx : Nat) (cur : Int),
      ((placeChildren sd sX sY aW aH base rem cs idx cur).map
          (fun b => axisSpan sd b.position)).sum =
        (cs.length : Int) * base + bonus rem idx cs.length := by
  intro cs
  induction cs with
  | nil =>
    intro idx cur
    cases sd <;> simp [placeChildren, bonus]
  | cons c rest ih =>
    intro idx cur
    cases sd with
    | horizontal =>
      have hstep := ih (idx + 1) (cur + (base + (if (idx : Int) < rem then 1 else 0)))
      simp only [placeChildren, List.map_cons, List.sum_cons, hstep, bonus]
      have : axisSpan StackDirection.horizontal
          ({ c with position := ⟨cur, base + (if (idx : Int) < rem then 1 else 0), sY, aH⟩ }
            : Block).position = base + (if (idx : Int) < rem then 1 else 0) := rfl
      rw [this]
      simp only [List.length_cons]
      push_cast
      ring
    | vertical =>
      have hstep := ih (idx + 1) (cur + (base + (if (idx : Int) < rem then 1 else 0)))
      simp only [placeChildren, List.map_cons, List.sum_cons, hstep, bonus]
      have : axisSpan StackDirection.vertical
          ({ c with position := ⟨sX, aW, cur, base + (if (idx : Int) < rem then 1 else 0)⟩ }
            : Block).position = base + (if (idx : Int) < rem then 1 else 0) := rfl
      rw [this]
      simp only [List.length_cons]
      push_cast
      ring

lemma bonus_of_le (rem : Int) : ∀ (len idx : Nat), rem ≤ (idx : Int) → bonus rem idx len = 0 := by
  intro len
  induction len with
  | zero => intro idx h; rfl
  | succ n ih =>
    intro idx h
    unfold bonus
    rw [if_neg (by omega), ih (idx + 1) (by push_cast; omega)]
    ring

lemma bonus_eq (rem : Int) : ∀ (len idx : Nat), (idx : Int) ≤ rem →
    rem ≤ ((idx + len : Nat) : Int) → bonus rem idx len = rem - (idx : Int) := by
  intro len
  induction len with
  | zero =>
    intro idx h1 h2
    push_cast at h2
    have : rem = (idx : Int) := by omega
    rw [this]
    simp [bonus]
  | succ n ih =>
    intro idx h1 h2
    unfold bonus
    by_cases hlt : (idx : Int) < rem
    · rw [if_pos hlt, ih (idx + 1) (by push_cast; omega) (by push_cast at h2 ⊢; omega)]
      push_cast
      ring
    · have hre : rem = (idx : Int) := by omega
      rw [if_neg hlt, bonus_of_le rem n (idx + 1) (by push_cast; omega), hre]
      ring

/-- C6: after the stack-direction redistribution on a container with `n ≥ 1`
children, the output children (in sorted order) have distribution-axis extent
`floor(ext/n) + 1` at indices below `ext mod n` and `floor(ext/n)` at the
rest, start consecutively at the interior origin with zero gaps, and their
extents sum exactly to the interior extent `ext`. -/
theorem C6_even_redistribution (hero : Block) (cs : List Block) (sd : StackDirection)
    (hsd : hero.heroProperties = some sd) (hn : 1 ≤ cs.length) :
    (redistributeChildren hero cs).length = cs.length ∧
    (∀ i b, (redistributeChildren hero cs).get? i = some b →
      axisSpan sd b.position =
        Int.fdiv (interiorExtent sd hero.position cs.length) (cs.length : Int) +
          (if (i : Int) < Int.fmod (interiorExtent sd hero.position cs.length) (cs.length : Int)
            then 1 else 0)) ∧
    (∀ b, (redistributeChildren hero cs).get? 0 = some b →
      axisStart sd b.position = axisStart sd hero.position + 1) ∧
    (∀ i a b, (redistributeChildren hero cs).get? i = some a →
      (redistributeChildren hero cs).get? (i + 1) = some b →
      axisStart sd b.position = axisStart sd a.position + axisSpan sd a.position) ∧
    ((redistributeChildren hero cs).map (fun b => axisSpan sd b.position)).sum =
      interiorExtent sd hero.position cs.length := by
  have hsort : (List.insertionSort (redistLE sd) cs).length = cs.length :=
    List.length_insertionSort (redistLE sd) cs
  have hnz : (cs.length : Int) ≠ 0 := by
    have h1 : (1 : Int) ≤ (cs.length : Int) := by exact_mod_cast hn
    omega
  have hfm : Int.fmod (interiorExtent sd hero.position cs.length) (cs.length : Int) =
      interiorExtent sd hero.position cs.length % (cs.length : Int) :=
    Int.fmod_eq_emod _ (by exact_mod_cast Nat.zero_le cs.length)
  have hrem_nonneg :
      0 ≤ Int.fmod (interiorExtent sd hero.position cs.length) (cs.length : Int) := by
    rw [hfm]
    exact Int.emod_nonneg _ hnz
  have hrem_lt : Int.fmod (interiorExtent sd hero.position cs.length) (cs.length : Int) <
      (cs.length : Int) := by
    rw [hfm]
    have h1 : (1 : Int) ≤ (cs.length : Int) := by exact_mod_cast hn
    exact Int.emod_lt_of_pos _ (by omega)
  have hdm : (cs.length : Int) *
        Int.fdiv (interiorExtent sd hero.position cs.length) (cs.length : Int) +
        Int.fmod (interiorExtent sd hero.position cs.length) (cs.length : Int) =
      interiorExtent sd hero.position cs.length :=
    Int.fdiv_add_fmod _ _
  cases sd with
  | horizontal =>
    have hout : redistributeChildren hero cs =
        placeChildren StackDirection.horizontal (hero.position.colStart + 1)
          (hero.position.rowStart + 1)
          (redistAvail StackDirection.horizontal hero.position cs.length).1
          (redistAvail StackDirection.horizontal hero.position cs.length).2
          (Int.fdiv (interiorExtent StackDirection.horizontal hero.position cs.length)
            (cs.length : Int))
          (Int.fmod (interiorExtent StackDirection.horizontal hero.position cs.length)
            (cs.length : Int))
          (List.insertionSort (redistLE StackDirection.horizontal) cs) 0
          (hero.position.colStart + 1) := by
      unfold redistributeChildren
      rw [hsd]
      rfl
    rw [hout]
    refine ⟨?_, ?_, ?_, ?_, ?_⟩
    · rw [placeChildren_length]
      exact hsort
    · intro i b hb
      have := placeChildren_span StackDirection.horizontal _ _ _ _ _ _
        (List.insertionSort (redistLE StackDirection.horizontal) cs) 0 _ i b hb
      rw [this]
      simp only [Nat.zero_add]
    · intro b hb
      have := placeChildren_start0 StackDirection.horizontal _ _ _ _ _ _
        (List.insertionSort (redistLE StackDirection.horizontal) cs) 0 _ b hb
      rw [this]
      rfl
    · intro i a b ha hb
      exact placeChildren_chain StackDirection.horizontal _ _ _ _ _ _
        (List.insertionSort (redistLE StackDirection.horizontal) cs) 0 _ i a b ha hb
    · rw [placeChildren_sum, hsort,
        bonus_eq _ cs.length 0 (by exact_mod_cast hrem_nonneg) (by push_cast; omega)]
      push_cast
      omega
  | vertical =>
    have hout : redistributeChildren hero cs =
        placeChildren StackDirection.vertical (hero.position.colStart + 1)
          (hero.position.rowStart + 1)
          (redistAvail StackDirection.vertical hero.position cs.length).1
          (redistAvail StackDirection.vertical hero.position cs.length).2
          (Int.fdiv (interiorExtent StackDirection.vertical hero.position cs.length)
            (cs.length : Int))
          (Int.fmod (interiorExtent StackDirection.vertical hero.position cs.length)
            (cs.length : Int))
          (List.insertionSort (redistLE StackDirection.vertical) cs) 0
          (hero.position.rowStart + 1) := by
      unfold redistributeChildren
      rw [hsd]
      rfl
    rw [hout]
    refine ⟨?_, ?_, ?_, ?_, ?_⟩
    · rw [placeChildren_length]
      exact hsort
    · intro i b hb
      have := placeChildren_span StackDirection.vertical _ _ _ _ _ _
        (List.insertionSort (redistLE StackDirection.vertical) cs) 0 _ i b hb
      rw [this]
      simp only [Nat.zero_add]
    · intro b hb
      have := placeChildren_start0 StackDirection.vertical _ _ _ _ _ _
        (List.insertionSort (redistLE StackDirection.vertical) cs) 0 _ b hb
      rw [this]
      rfl
    · intro i a b ha hb
      exact placeChildren_chain StackDirection.vertical _ _ _ _ _ _
        (List.insertionSort (redistLE StackDirection.vertical) cs) 0 _ i a b ha hb
    · rw [placeChildren_sum, hsort,
        bonus_eq _ cs.length 0 (by exact_mod_cast hrem_nonneg) (by push_cast; omega)]
      push_cast
      omega

/-- Container and children for the spec's redistribution example: a vertical
container with `rowSpan = 10` and three children. -/
def exC6hero : Block :=
  ⟨"h", BlockType.hero, ⟨1, 6, 1, 10⟩, none, some StackDirection.vertical⟩

def exC6children : List Block :=
  [⟨"c1", BlockType.stats, ⟨2, 2, 2, 2⟩, some "h", none⟩,
   ⟨"c2", BlockType.stats, ⟨2, 2, 4, 2⟩, some "h", none⟩,
   ⟨"c3", BlockType.stats, ⟨2, 2, 6, 2⟩, some "h", none⟩]

/-- C6 witness: the spec's concrete example — a vertical container of height
10 with 3 children yields child heights `[3, 3, 2]` summing to the interior
height 8 — together with the instantiated redistribution law. -/
theorem C6_even_redistribution_witness :
    ((redistributeChildren exC6hero exC6children).map (fun b => b.position.rowSpan) = [3, 3, 2] ∧
      interiorExtent StackDirection.vertical exC6hero.position exC6children.length = 8) ∧
    ((redistributeChildren exC6hero exC6children).length = exC6children.length ∧
    (∀ i b, (redistributeChildren exC6hero exC6children).get? i = some b →
      axisSpan StackDirection.vertical b.position =
        Int.fdiv (interiorExtent StackDirection.vertical exC6hero.position exC6children.length)
            (exC6children.length : Int) +
          (if (i : Int) < Int.fmod
              (interiorExtent StackDirection.vertical exC6hero.position exC6children.length)
              (exC6children.length : Int) then 1 else 0)) ∧
    (∀ b, (redistributeChildren exC6hero exC6children).get? 0 = some b →
      axisStart StackDirection.vertical b.position =
        axisStart StackDirection.vertical exC6hero.position + 1) ∧
    (∀ i a b, (redistributeChildren exC6hero exC6children).get? i = some a →
      (redistributeChildren exC6hero exC6children).get? (i + 1) = some b →
      axisStart StackDirection.vertical b.position =
        axisStart StackDirection.vertical a.position +
          axisSpan StackDirection.vertical a.position) ∧
    ((redistributeChildren exC6hero exC6children).map
        (fun b => axisSpan StackDirection.vertical b.position)).sum =
      interiorExtent StackDirection.vertical exC6hero.position exC6children.length) :=
  ⟨⟨by decide, by decide⟩,
    C6_even_redistribution exC6hero exC6children StackDirection.vertical rfl (by decide)⟩

/-! ### Interactive container resize (GridCanvas.tsx handleMove, RESIZE path) -/

def MIN_CHILD_COLS : Int := 1

def MIN_CHILD_ROWS : Int := 3

def MIN_HERO_ROWS : Int := 5

/-- `Math.round (num / den)` for `den > 0`: round half towards positive
infinity. The source multiplies by a precomputed `scale = cur / init`; this
embedding uses the exact rational value. -/
def jsRound (num den : Int) : Int := Int.fdiv (2 * num + den) (2 * den)

/-- `interaction.initialPositions[b.id] || b.position`. -/
def initPosOf (initPos : List (String × GridPosition)) (b : Block) : GridPosition :=
  match initPos.find? (fun p => p.1 == b.id) with
  | some p => p.2
  | none => b.position

/-- Sort order of the hero's children in the proportional-resize pass:
by snapshot `colStart` (horizontal) or snapshot `rowStart` (vertical). -/
def scaleSortLE (sd : StackDirection) (initPos : List (String × GridPosition))
    (a b : Block) : Prop :=
  match sd with
  | StackDirection.horizontal => (initPosOf initPos a).colStart ≤ (initPosOf initPos b).colStart
  | StackDirection.vertical => (initPosOf initPos a).rowStart ≤ (initPosOf initPos b).rowStart

instance instDecScaleSortLE (sd : StackDirection) (initPos : List (String × GridPosition)) :
    DecidableRel (scaleSortLE sd initPos) := fun a b =>
  match sd with
  | StackDirection.horizontal =>
      inferInstanceAs (Decidable ((initPosOf initPos a).colStart ≤ (initPosOf initPos b).colStart))
  | StackDirection.vertical =>
      inferInstanceAs (Decidable ((initPosOf initPos a).rowStart ≤ (initPosOf initPos b).rowStart))

/-- The sibling loop of the hero resize: a sibling overlapping the hero's
new row range and lying to the right caps `newColSpan` at the gap width. -/
def sibLimit (initial : GridPosition) (newRowSpan : Int) : List Block → Int → Int
  | [], w => w
  | sib :: rest, w =>
    let w' := if initial.rowStart < sib.position.rowStart + sib.position.rowSpan ∧
        sib.position.rowStart < initial.rowStart + newRowSpan ∧
        initial.colStart + initial.colSpan ≤ sib.position.colStart
      then min w (sib.position.colStart - initial.colStart)
      else w
    sibLimit initial newRowSpan rest w'

/-- The span computation of the RESIZE branch: edge clamp, per-type minimum
rows, parent-interior cap, hero child minimums and the sibling cap. -/
def resizeSpans (blocks : List Block) (id : String) (block : Block) (initial : GridPosition)
    (deltaC deltaR gridColumns : Int) : Int × Int :=
  let newColSpan0 := max 1 (min (gridColumns - initial.colStart + 1) (initial.colSpan + deltaC))
  let minRows := if block.type = BlockType.hero then MIN_HERO_ROWS else MIN_CHILD_ROWS
  let newRowSpan0 := max minRows (initial.rowSpan + deltaR)
  let spans1 :=
    match block.parentBlockId with
    | none => (newColSpan0, newRowSpan0)
    | some pid =>
      match blocks.find? (fun p => p.id == pid) with
      | none => (newColSpan0, newRowSpan0)
      | some parent =>
        (min newColSpan0 ((parent.position.colStart + parent.position.colSpan) - initial.colStart),
          min newRowSpan0
            ((parent.position.rowStart + parent.position.rowSpan - 1) - initial.rowStart))
  if block.type = BlockType.hero then
    let children := blocks.filter (fun c => c.parentBlockId == some id)
    let minRequired :=
      if 0 < children.length then
        match stackDirOf block with
        | StackDirection.horizontal =>
          ((children.length : Int) * MIN_CHILD_COLS, MIN_CHILD_ROWS)
        | StackDirection.vertical =>
          (MIN_CHILD_COLS, (children.length : Int) * MIN_CHILD_ROWS)
      else ((5 : Int), (3 : Int))
    let newColSpan2 := max minRequired.1 spans1.1
    let newRowSpan2 := max minRequired.2 spans1.2
    let siblings := blocks.filter (fun b => !(b.id == id) && b.parentBlockId == block.parentBlockId)
    (sibLimit initial newRowSpan2 siblings newColSpan2, newRowSpan2)
  else spans1

/-- The `sortedChildren.forEach` of the proportional resize: walks the
children with the running `previousEnd` cursor, returning the candidate
updates and the latched `resizeInvalid` flag. -/
def scaleChildren (sd : StackDirection) (initHeroPos : GridPosition)
    (newPosCol newPosRow newColSpan newRowSpan initW initH curW curH : Int) :
    List (String × GridPosition) → Int → List (String × GridPosition) × Bool
  | [], _ => ([], false)
  | (cid, icp) :: rest, previousEnd =>
    match sd with
    | StackDirection.horizontal =>
      let newRelWidth0 := max MIN_CHILD_COLS (jsRound (icp.colSpan * curW) initW)
      let newRelHeight0 := max MIN_CHILD_ROWS (jsRound (icp.rowSpan * curH) initH)
      let newRelHeight := if curH < newRelHeight0 then curH else newRelHeight0
      let newChildStart0 := newPosCol + jsRound ((icp.colStart - initHeroPos.colStart) * curW) initW
      let newChildStart := if newChildStart0 < previousEnd then previousEnd else newChildStart0
      let newRelWidth := if newPosCol + newColSpan < newChildStart + newRelWidth0
        then (newPosCol + newColSpan) - newChildStart else newRelWidth0
      let restRes := scaleChildren StackDirection.horizontal initHeroPos newPosCol newPosRow
        newColSpan newRowSpan initW initH curW curH rest (newChildStart + newRelWidth)
      ((cid, ⟨newChildStart, newRelWidth, newPosRow + 1, newRelHeight⟩) :: restRes.1,
        decide (newRelWidth < MIN_CHILD_COLS) || restRes.2)
    | StackDirection.vertical =>
      let newRelHeight0 := max MIN_CHILD_ROWS (jsRound (icp.rowSpan * curH) initH)
      let newRelWidth0 := max MIN_CHILD_COLS (jsRound (icp.colSpan * curW) initW)
      let newRelWidth := if curW < newRelWidth0 then curW else newRelWidth0
      let newChildStart0 :=
        newPosRow + 1 + jsRound ((icp.rowStart - (initHeroPos.rowStart + 1)) * curH) initH
      let newChildStart := if newChildStart0 < previousEnd then previousEnd else newChildStart0
      let newRelHeight := if newPosRow + newRowSpan - 1 < newChildStart + newRelHeight0
        then (newPosRow + newRowSpan - 1) - newChildStart else newRelHeight0
      let restRes := scaleChildren StackDirection.vertical initHeroPos newPosCol newPosRow
        newColSpan newRowSpan initW initH curW curH rest (newChildStart + newRelHeight)
      ((cid, ⟨newPosCol, newRelWidth, newChildStart, newRelHeight⟩) :: restRes.1,
        decide (newRelHeight < MIN_CHILD_ROWS) || restRes.2)

/-- The hero's children, in scale order, paired with their snapshot
positions. -/
def sortedScaleChildren (blocks : List Block) (id : String)
    (initPos : List (String × GridPosition)) (sd : StackDirection) :
    List (String × GridPosition) :=
  ((blocks.filter (fun c => c.parentBlockId == some id)).insertionSort
      (scaleSortLE sd initPos)).map (fun c => (c.id, initPosOf initPos c))

/-- Full proportional-resize computation for the active hero of one tick:
candidate child updates plus the `resizeInvalid` flag. -/
def scaleResult (blocks : List Block) (id : String) (block : Block) (initial : GridPosition)
    (initPos : List (String × GridPosition)) (deltaC deltaR gridColumns : Int) :
    List (String × GridPosition) × Bool :=
  let spans := resizeSpans blocks id block initial deltaC deltaR gridColumns
  let sd := stackDirOf block
  scaleChildren sd initial initial.colStart initial.rowStart spans.1 spans.2
    (max 1 initial.colSpan) (max 1 initial.rowSpan) (max 1 spans.1) (max 1 spans.2)
    (sortedScaleChildren blocks id initPos sd)
    (match sd with
      | StackDirection.horizontal => initial.colStart
      | StackDirection.vertical => initial.rowStart + 1)

/-- The `targetIds.forEach` of a RESIZE tick: builds the `newPositions`
entry list and the `hasChanges` flag (candidate child updates are merged
into `newPositions` without setting `hasChanges`, exactly as the source's
`Object.assign` does). -/
def tickEntries (blocks : List Block) (activeId : String)
    (initPos : List (String × GridPosition)) (deltaC deltaR gridColumns : Int) :
    List (String × GridPosition) → List (String × GridPosition) × Bool
  | [] => ([], false)
  | (id, initial) :: rest =>
    let restRes := tickEntries blocks activeId initPos deltaC deltaR gridColumns rest
    match blocks.find? (fun b => b.id == id) with
    | none => ((id, initial) :: restRes.1, true)
    | some block =>
      if block.parentBlockId = some activeId then restRes
      else if id = activeId then
        let spans := resizeSpans blocks id block initial deltaC deltaR gridColumns
        let newPos : GridPosition := ⟨initial.colStart, spans.1, initial.rowStart, spans.2⟩
        if block.type = BlockType.hero ∧
            0 < (blocks.filter (fun c => c.parentBlockId == some id)).length then
          let sc := scaleResult blocks id block initial initPos deltaC deltaR gridColumns
          if sc.2 then restRes
          else if newPos = block.position then (sc.1 ++ restRes.1, restRes.2)
          else (sc.1 ++ (id, newPos) :: restRes.1, true)
        else
          if newPos = block.position then restRes
          else ((id, newPos) :: restRes.1, true)
      else
        if initial = block.position then restRes
        else ((id, initial) :: restRes.1, true)

/-- One RESIZE tick of `handleMove`: if `hasChanges`, the Collision
Resolver commits the entry list; otherwise the layout is untouched. -/
def heroResizeTick (blocks : List Block) (activeId : String)
    (initPos : List (String × GridPosition)) (deltaC deltaR gridColumns : Int) : List Block :=
  let res := tickEntries blocks activeId initPos deltaC deltaR gridColumns initPos
  if res.2 then moveBlock blocks (initPos.map Prod.fst) res.1 else blocks

lemma scaleChildren_nil (sd : StackDirection) (initHeroPos : GridPosition)
    (a b c d e f g h pe : Int) :
    scaleChildren sd initHeroPos a b c d e f g h [] pe = ([], false) := by
  cases sd <;> rfl

lemma scaleResult_empty (blocks : List Block) (id : String) (block : Block)
    (initial : GridPosition) (initPos : List (String × GridPosition))
    (deltaC deltaR gridColumns : Int)
    (hfil : blocks.filter (fun c => c.parentBlockId == some id) = []) :
    (scaleResult blocks id block initial initPos deltaC deltaR gridColumns).2 = false := by
  unfold scaleResult sortedScaleChildren
  rw [hfil]
  simp only [List.insertionSort, List.map_nil, scaleChildren_nil]

lemma tickEntries_skip (blocks : List Block) (activeId : String) (hero : Block)
    (initPos : List (String × GridPosition)) (deltaC deltaR gridColumns : Int)
    (hfind : blocks.find? (fun b => b.id == activeId) = some hero)
    (htype : hero.type = BlockType.hero)
    (hchild : ∀ p ∈ initPos, p.1 ≠ activeId →
      (blocks.find? (fun c => c.id == p.1)).map Block.parentBlockId = some (some activeId))
    (hinv : ∀ p ∈ initPos, p.1 = activeId →
      (scaleResult blocks activeId hero p.2 initPos deltaC deltaR gridColumns).2 = true) :
    ∀ l : List (String × GridPosition), (∀ p ∈ l, p ∈ initPos) →
      tickEntries blocks activeId initPos deltaC deltaR gridColumns l = ([], false) := by
  intro l
  induction l with
  | nil => intro _; rfl
  | cons p rest ih =>
    intro hsub
    obtain ⟨id, initial⟩ := p
    have hrest : tickEntries blocks activeId initPos deltaC deltaR gridColumns rest =
        ([], false) := ih (fun q hq => hsub q (List.mem_cons_of_mem _ hq))
    have hmem : (id, initial) ∈ initPos := hsub _ (List.mem_cons_self _ _)
    by_cases hid : id = activeId
    · subst hid
      show (let restRes := tickEntries blocks id initPos deltaC deltaR gridColumns rest
        match blocks.find? (fun b => b.id == id) with
        | none => ((id, initial) :: restRes.1, true)
        | some block =>
          if block.parentBlockId = some id then restRes
          else if id = id then
            let spans := resizeSpans blocks id block initial deltaC deltaR gridColumns
            let newPos : GridPosition := ⟨initial.colStart, spans.1, initial.rowStart, spans.2⟩
            if block.type = BlockType.hero ∧
                0 < (blocks.filter (fun c => c.parentBlockId == some id)).length then
              let sc := scaleResult blocks id block initial initPos deltaC deltaR gridColumns
              if sc.2 then restRes
              else if newPos = block.position then (sc.1 ++ restRes.1, restRes.2)
              else (sc.1 ++ (id, newPos) :: restRes.1, true)
            else
              if newPos = block.position then restRes
              else ((id, newPos) :: restRes.1, true)
          else
            if initial = block.position then restRes
            else ((id, initial) :: restRes.1, true)) = ([], false)
      rw [hfind]
      dsimp only
      by_cases hpar : hero.parentBlockId = some id
      · rw [if_pos hpar, hrest]
      · rw [if_neg hpar, if_pos rfl]
        have hsc : (scaleResult blocks id hero initial initPos deltaC deltaR gridColumns).2 =
            true := hinv (id, initial) hmem rfl
        have hlen : 0 < (blocks.filter (fun c => c.parentBlockId == some id)).length := by
          by_contra hz
          have hfil : blocks.filter (fun c => c.parentBlockId == some id) = [] :=
            List.length_eq_zero.mp (by omega)
          have : (scaleResult blocks id hero initial initPos deltaC deltaR gridColumns).2 =
              false := scaleResult_empty blocks id hero initial initPos deltaC deltaR
            gridColumns hfil
          rw [this] at hsc
          cases hsc
        rw [if_pos ⟨htype, hlen⟩, if_pos hsc, hrest]
    · show (let restRes := tickEntries blocks activeId initPos deltaC deltaR gridColumns rest
        match blocks.find? (fun b => b.id == id) with
        | none => ((id, initial) :: restRes.1, true)
        | some block =>
          if block.parentBlockId = some activeId then restRes
          else if id = activeId then
            let spans := resizeSpans blocks id block initial deltaC deltaR gridColumns
            let newPos : GridPosition := ⟨initial.colStart, spans.1, initial.rowStart, spans.2⟩
            if block.type = BlockType.hero ∧
                0 < (blocks.filter (fun c => c.parentBlockId == some id)).length then
              let sc := scaleResult blocks id block initial initPos deltaC deltaR gridColumns
              if sc.2 then restRes
              else if newPos = block.position then (sc.1 ++ restRes.1, restRes.2)
              else (sc.1 ++ (id, newPos) :: restRes.1, true)
            else
              if newPos = block.position then restRes
              else ((id, newPos) :: restRes.1, true)
          else
            if initial = block.position then restRes
            else ((id, initial) :: restRes.1, true)) = ([], false)
      have hc := hchild (id, initial) hmem hid
      cases hb : blocks.find? (fun c => c.id == id) with
      | none => rw [hb] at hc; cases hc
      | some b =>
        rw [hb] at hc
        have hbp : b.parentBlockId = some activeId := Option.some.inj hc
        dsimp only
        rw [if_pos hbp, hrest]

/-- C7: a RESIZE tick on a hero whose proportional child rescale trips the
`resizeInvalid` flag commits nothing: the block list is returned exactly as
it was (the snapshot keys being the hero and its children, as a RESIZE
interaction records them). -/
theorem C7_invalid_resize_noop (blocks : List Block) (activeId : String) (hero : Block)
    (initPos : List (String × GridPosition)) (deltaC deltaR gridColumns : Int)
    (hfind : blocks.find? (fun b => b.id == activeId) = some hero)
    (htype : hero.type = BlockType.hero)
    (hchild : ∀ p ∈ initPos, p.1 ≠ activeId →
      (blocks.find? (fun c => c.id == p.1)).map Block.parentBlockId = some (some activeId))
    (hinv : ∀ p ∈ initPos, p.1 = activeId →
      (scaleResult blocks activeId hero p.2 initPos deltaC deltaR gridColumns).2 = true) :
    heroResizeTick blocks activeId initPos deltaC deltaR gridColumns = blocks := by
  unfold heroResizeTick
  rw [tickEntries_skip blocks activeId hero initPos deltaC deltaR gridColumns hfind htype
    hchild hinv initPos (fun p hp => hp)]
  rfl

def exC7blocks : List Block :=
  [⟨"h", BlockType.hero, ⟨1, 4, 1, 5⟩, none, some StackDirection.horizontal⟩,
   ⟨"c1", BlockType.stats, ⟨1, 2, 2, 3⟩, some "h", none⟩,
   ⟨"c2", BlockType.stats, ⟨3, 1, 2, 3⟩, some "h", none⟩,
   ⟨"c3", BlockType.stats, ⟨4, 1, 2, 3⟩, some "h", none⟩]

def exC7hero : Block :=
  ⟨"h", BlockType.hero, ⟨1, 4, 1, 5⟩, none, some StackDirection.horizontal⟩

def exC7init : List (String × GridPosition) :=
  [("h", ⟨1, 4, 1, 5⟩), ("c1", ⟨1, 2, 2, 3⟩), ("c2", ⟨3, 1, 2, 3⟩), ("c3", ⟨4, 1, 2, 3⟩)]

/-- C7 witness: shrinking a width-4 horizontal hero with three children by
one column trips `resizeInvalid` (the last child's width is forced to 0),
and the tick leaves the layout exactly unchanged. -/
theorem C7_invalid_resize_noop_witness :
    (scaleResult exC7blocks "h" exC7hero ⟨1, 4, 1, 5⟩ exC7init (-1) 0 12).2 = true ∧
    heroResizeTick exC7blocks "h" exC7init (-1) 0 12 = exC7blocks :=
  ⟨by decide,
    C7_invalid_resize_noop exC7blocks "h" exC7hero exC7init (-1) 0 12 (by decide) (by decide)
      (by decide) (by decide)⟩

/-! ### Drag-end commit (GridCanvas.tsx handleEnd) and the child-drag tick -/

/-- The fields of `ghostBlock` that `handleEnd` reads. -/
structure GhostBlock where
  position : GridPosition
  parentBlockId : Option String
  isValid : Bool
deriving DecidableEq, Repr

/-- Root-drop commit: a valid ghost applies one rigid translation delta to
every snapshot member (the active block additionally takes the ghost's
parent); an invalid or missing ghost commits nothing. No resolver runs. -/
def handleEndRoot (blocks : List Block) (initPos : List (String × GridPosition))
    (activeDragId : String) (ghostBlock : Option GhostBlock) : List Block :=
  match ghostBlock with
  | none => blocks
  | some g =>
    if g.isValid then
      match initPos.find? (fun p => p.1 == activeDragId) with
      | none => blocks
      | some initActive =>
        let deltaCol := g.position.colStart - initActive.2.colStart
        let deltaRow := g.position.rowStart - initActive.2.rowStart
        blocks.map fun b =>
          match initPos.find? (fun p => p.1 == b.id) with
          | some init =>
            { b with
              position := { b.position with
                colStart := init.2.colStart + deltaCol,
                rowStart := init.2.rowStart + deltaRow },
              parentBlockId := if b.id == activeDragId then g.parentBlockId else b.parentBlockId }
          | none => b
    else blocks

/-- Child-drop commit: a valid ghost moves the dragged child to the ghost
position and parent and re-resolves; an invalid or missing ghost re-resolves
the CURRENT blocks (which the live shuffle has been updating) as-is. -/
def handleEndChild (blocks : List Block) (initPos : List (String × GridPosition))
    (ghostBlock : Option GhostBlock) : List Block :=
  match ghostBlock with
  | none => moveBlock blocks [] []
  | some g =>
    if g.isValid then
      match initPos.map Prod.fst with
      | [] => moveBlock blocks [] []
      | targetId :: _ =>
        moveBlock (blocks.map fun b =>
          if b.id == targetId then
            { b with position := g.position, parentBlockId := g.parentBlockId }
          else b) [targetId] []
    else moveBlock blocks [] []

/-- One DRAG tick of the child-shuffle path of `handleMove`: clamp the raw
delta against the selection bounds, offset every snapshot position, and
commit through the Collision Resolver when anything changed. -/
def childDragTick (blocks : List Block) (initPos : List (String × GridPosition))
    (colDeltaRaw rowDeltaRaw gridColumns : Int) : List Block :=
  match initPos with
  | [] => blocks
  | p0 :: rest =>
    let minCol := rest.foldl (fun m q => min m q.2.colStart) p0.2.colStart
    let maxCol := rest.foldl (fun m q => max m (q.2.colStart + q.2.colSpan))
      (p0.2.colStart + p0.2.colSpan)
    let minRow := rest.foldl (fun m q => min m q.2.rowStart) p0.2.rowStart
    let clampedColDelta := max (1 - minCol) (min (gridColumns + 1 - maxCol) colDeltaRaw)
    let clampedRowDelta := max (1 - minRow) rowDeltaRaw
    let entries := (p0 :: rest).filterMap fun q =>
      let newPos : GridPosition := { q.2 with
        colStart := q.2.colStart + clampedColDelta,
        rowStart := q.2.rowStart + clampedRowDelta }
      match blocks.find? (fun b => b.id == q.1) with
      | some block => if newPos = block.position then none else some (q.1, newPos)
      | none => some (q.1, newPos)
    if entries.isEmpty then blocks
    else moveBlock blocks ((p0 :: rest).map Prod.fst) entries

/-- Snapshot for the C8 counterexample: a horizontal hero with two
side-by-side children. -/
def exC8blocks : List Block :=
  [⟨"p", BlockType.hero, ⟨1, 8, 1, 6⟩, none, some StackDirection.horizontal⟩,
   ⟨"c1", BlockType.stats, ⟨1, 3, 2, 4⟩, some "p", none⟩,
   ⟨"c2", BlockType.stats, ⟨4, 3, 2, 4⟩, some "p", none⟩]

def exC8init : List (String × GridPosition) := [("c1", ⟨1, 3, 2, 4⟩)]

/-- C8 counterexample: dragging child `c1` three columns right shuffles the
layout live; dropping with NO valid ghost (`ghostBlock = none`) does not
revert to the drag-start snapshot — `c1` ends at `(col 4, row 6)` instead of
its snapshot `(col 1, row 2)`. -/
theorem C8_counterexample :
    ((handleEndChild (childDragTick exC8blocks exC8init 3 0 12) exC8init none).find?
        (fun b => b.id == "c1")).map Block.position ≠
      (exC8blocks.find? (fun b => b.id == "c1")).map Block.position := by
  decide

/-- C8 amended: for ROOT drags the claimed commit semantics hold exactly —
an invalid or absent ghost leaves the block list untouched, and a valid
ghost applies one rigid snapshot-relative translation to every group member
(spans and non-active parents preserved, the active block takes the ghost's
parent) with no Collision Resolver pass. Child drops instead pass through
the resolver and do not revert to the snapshot on an invalid drop. -/
theorem C8_root_drag_commit (blocks : List Block) (initPos : List (String × GridPosition))
    (activeDragId : String) (g : Option GhostBlock) :
    ((∀ gb, g = some gb → gb.isValid = false →
        handleEndRoot blocks initPos activeDragId g = blocks) ∧
      (g = none → handleEndRoot blocks initPos activeDragId g = blocks)) ∧
    (∀ gb initActive, g = some gb → gb.isValid = true →
      initPos.find? (fun p => p.1 == activeDragId) = some initActive →
      (handleEndRoot blocks initPos activeDragId g).length = blocks.length ∧
      (∀ i b, blocks.get? i = some b →
        (∀ init, initPos.find? (fun p => p.1 == b.id) = some init →
          (handleEndRoot blocks initPos activeDragId g).get? i = some
            { b with
              position := { b.position with
                colStart := init.2.colStart + (gb.position.colStart - initActive.2.colStart),
                rowStart := init.2.rowStart + (gb.position.rowStart - initActive.2.rowStart) },
              parentBlockId := if b.id == activeDragId then gb.parentBlockId
                else b.parentBlockId }) ∧
        (initPos.find? (fun p => p.1 == b.id) = none →
          (handleEndRoot blocks initPos activeDragId g).get? i = some b))) := by
  refine ⟨⟨?_, ?_⟩, ?_⟩
  · intro gb hg hval
    rw [hg]
    unfold handleEndRoot
    dsimp only
    rw [hval]
    rfl
  · intro hg
    rw [hg]
    rfl
  · intro gb initActive hg hval hact
    rw [hg]
    have hout : handleEndRoot blocks initPos activeDragId (some gb) =
        blocks.map (fun b =>
          match initPos.find? (fun p => p.1 == b.id) with
          | some init =>
            { b with
              position := { b.position with
                colStart := init.2.colStart + (gb.position.colStart - initActive.2.colStart),
                rowStart := init.2.rowStart + (gb.position.rowStart - initActive.2.rowStart) },
              parentBlockId := if b.id == activeDragId then gb.parentBlockId
                else b.parentBlockId }
          | none => b) := by
      unfold handleEndRoot
      dsimp only
      rw [hval, hact]
      rfl
    rw [hout]
    refine ⟨List.length_map blocks _, ?_⟩
    intro i b hb
    constructor
    · intro init hinit
      rw [List.get?_map, hb, Option.map_some', hinit]
    · intro hnone
      rw [List.get?_map, hb, Option.map_some', hnone]

def exC8ghost : GhostBlock := ⟨⟨3, 8, 4, 6⟩, none, true⟩

def exC8rootInit : List (String × GridPosition) :=
  [("p", ⟨1, 8, 1, 6⟩), ("c1", ⟨1, 3, 2, 4⟩), ("c2", ⟨4, 3, 2, 4⟩)]

/-- C8 witness: committing a valid root drag of the hero group two columns
right and three rows down is the rigid translation of every member. -/
theorem C8_root_drag_commit_witness :
    (handleEndRoot exC8blocks exC8rootInit "p" (some exC8ghost)).length = exC8blocks.length ∧
    (∀ i b, exC8blocks.get? i = some b →
      (∀ init, exC8rootInit.find? (fun p => p.1 == b.id) = some init →
        (handleEndRoot exC8blocks exC8rootInit "p" (some exC8ghost)).get? i = some
          { b with
            position := { b.position with
              colStart := init.2.colStart + (exC8ghost.position.colStart - 1),
              rowStart := init.2.rowStart + (exC8ghost.position.rowStart - 1) },
            parentBlockId := if b.id == "p" then exC8ghost.parentBlockId
              else b.parentBlockId }) ∧
      (exC8rootInit.find? (fun p => p.1 == b.id) = none →
        (handleEndRoot exC8blocks exC8rootInit "p" (some exC8ghost)).get? i = some b)) :=
  (C8_root_drag_commit exC8blocks exC8rootInit "p" (some exC8ghost)).2 exC8ghost
    ("p", ⟨1, 8, 1, 6⟩) rfl rfl rfl

end GridEngine
